import Mathlib

/-!
# Verification of the try-elysia CMS core

Shallow embedding of the repository's core logic and proofs about it:

* `validateStringLength` and friends (src/supabase.ts, validation section);
* the per-request identity derivation (`app.derive` in the main server file);
* the two `CMSStorage` variants (`InMemoryCMSStorage` in cms-storage.ts and
  `SupabaseCMSStorage` in cms-storage-supabase.ts) together with the
  per-request selector `getCMSStorage` (src/cms.ts);
* the HTML sanitization pipeline `sanitizeHTML` / `sanitizePlainText`
  (src/supabase.ts, sanitize section): the DOMPurify engine is external to
  the repository and is modelled from the spec, while `SANITIZE_CONFIG` and
  the five regex post-processing passes are transcribed from the source.

JavaScript strings are modelled as Lean `String`s (the inputs of interest
are ASCII, where JS UTF-16 length and Lean codepoint length agree), JS
`Map`s as insertion-ordered association lists, nullable/optional values as
`Option`, and the nondeterministic clock/id generator as explicit
parameters.
-/

set_option maxRecDepth 20000

namespace TryElysia

/-! ## JavaScript-flavoured helpers -/

/-- Truthiness of a JS `string | undefined | null` value: `undefined`,
`null` and the empty string are falsy. -/
def strTruthy : Option String → Bool
  | none => false
  | some s => s ≠ ""

/-- JS `x || null` / `x || undefined` on a string-valued field: collapses
the empty string to "absent". -/
def jsOrNull : Option String → Option String
  | none => none
  | some s => if s = "" then none else some s

/-- ASCII lowercase of a string, mirroring `String.prototype.toLowerCase`
on ASCII input. -/
def lowerStr (s : String) : String := String.mk (s.toList.map Char.toLower)

/-- JS whitespace test for the characters relevant to the embedded code. -/
def isWsChar (c : Char) : Bool := c = ' ' ∨ c = '\t' ∨ c = '\n' ∨ c = '\r'

/-- JS `String.prototype.trim` (ASCII whitespace). -/
def jsTrim (s : String) : String :=
  String.mk (((s.toList.dropWhile isWsChar).reverse.dropWhile isWsChar).reverse)

/-- JS `s.substring(0, n)` (code units; codepoints on ASCII input). -/
def jsTake (s : String) (n : Nat) : String := String.mk (s.toList.take n)

/-- JS `s.substring(n)`. -/
def jsDrop (s : String) (n : Nat) : String := String.mk (s.toList.drop n)

/-! ### JS `Map` as an insertion-ordered association list -/

/-- `Map.prototype.set`: replace in place when the key exists, else append. -/
def mapSet {α : Type} (m : List (String × α)) (k : String) (v : α) :
    List (String × α) :=
  if m.any (fun p => p.1 == k) then
    m.map (fun p => if p.1 == k then (k, v) else p)
  else
    m ++ [(k, v)]

/-- `Map.prototype.get` (as `Option`). -/
def mapGet {α : Type} (m : List (String × α)) (k : String) : Option α :=
  (m.find? (fun p => p.1 == k)).map (fun p => p.2)

/-- `Map.prototype.delete`: returns whether the key was present, and the
map with the key removed. -/
def mapDelete {α : Type} (m : List (String × α)) (k : String) :
    Bool × List (String × α) :=
  (m.any (fun p => p.1 == k), m.filter (fun p => ¬ (p.1 == k)))

/-! ## Content validator (src/supabase.ts, validation section) -/

/-- A JS runtime value reaching a `value: string` parameter: either an
actual string or something whose `typeof` is not `"string"`. -/
inductive JSVal where
  | str (s : String)
  | notStr
deriving DecidableEq, Repr

/-- Result shape `{ isValid: boolean; error?: string }`. -/
structure ValidationResult where
  isValid : Bool
  error : Option String
deriving DecidableEq, Repr

/-- `validateStringLength(value, maxLength, fieldName)` from src/supabase.ts:
type check, then length check, then emptiness check, first failure wins. -/
def validateStringLength (value : JSVal) (maxLength : Nat) (fieldName : String) :
    ValidationResult :=
  match value with
  | .notStr => ⟨false, some (fieldName ++ " must be a string")⟩
  | .str v =>
    if v.length > maxLength then
      ⟨false, some (fieldName ++ " exceeds maximum length of " ++
        toString maxLength ++ " characters (received " ++
        toString v.length ++ ")")⟩
    else if v.length = 0 then
      ⟨false, some (fieldName ++ " cannot be empty")⟩
    else
      ⟨true, none⟩

/-- `validateContentLength(content, maxLength)` from src/supabase.ts: type
check then length check only — no emptiness rule. -/
def validateContentLength (content : JSVal) (maxLength : Nat) : ValidationResult :=
  match content with
  | .notStr => ⟨false, some "Content must be a string"⟩
  | .str v =>
    if v.length > maxLength then
      ⟨false, some ("Content exceeds maximum length of " ++ toString maxLength ++
        " characters (received " ++ toString v.length ++ ")")⟩
    else
      ⟨true, none⟩

/-! ## Identity context derivation (`app.derive` in the main server file) -/

/-- A handle on a Supabase client: the module-level default client built
from env credentials, or one carrying a caller's bearer token. -/
inductive ClientRef where
  | anon
  | authed (token : String)
deriving DecidableEq, Repr

/-- Verified user identity as shaped by the derive step:
`{ id, email: data.user.email || undefined, ...user_metadata }`.
The metadata blob is opaque to the embedded logic. -/
structure UserInfo where
  id : String
  email : Option String
  metadata : List (String × String)
deriving DecidableEq, Repr

/-- The derived request context `{ user, supabaseClient }`. -/
structure DerivedCtx where
  user : Option UserInfo
  supabaseClient : Option ClientRef
deriving DecidableEq, Repr

/-- `createAuthenticatedClient(accessToken)` from src/supabase.ts: `null`
when the env credentials are missing, else a client with the bearer token
attached. `configured` is the truthiness of `supabaseUrl && supabaseAnonKey`. -/
def createAuthenticatedClient (configured : Bool) (accessToken : String) :
    Option ClientRef :=
  if configured then some (.authed accessToken) else none

/-- The module-level `supabase` client: present exactly when configured. -/
def moduleSupabase (configured : Bool) : Option ClientRef :=
  if configured then some .anon else none

/-- The `.derive` handler of the main app: extracts a bearer token from the
`authorization` header, verifies it with the identity provider (`verify`,
returning `none` for invalid/expired tokens and for provider errors — the
source's try/catch maps exceptions to the same unauthenticated result), and
yields `{ user, supabaseClient }`. -/
def deriveAuth (configured : Bool) (authHeader : Option String)
    (verify : String → Option UserInfo) : DerivedCtx :=
  let supabase := moduleSupabase configured
  match authHeader with
  | none => ⟨none, supabase⟩
  | some h =>
    let normalizedHeader := jsTrim h
    let bearerPre := lowerStr (jsTake normalizedHeader 7)
    if bearerPre ≠ "bearer " then ⟨none, supabase⟩
    else
      let token := jsTrim (jsDrop normalizedHeader 7)
      if token = "" ∨ supabase = none then ⟨none, supabase⟩
      else
        match verify token with
        | none => ⟨none, supabase⟩
        | some u =>
          ⟨some u, (createAuthenticatedClient configured token).orElse
            (fun _ => supabase)⟩

/-! ## Entity model (src/cms-storage.ts interfaces) -/

/-- `TextContent` entity. -/
structure TextContent where
  id : String
  key : String
  content : String
  createdAt : String
  updatedAt : String
deriving DecidableEq, Repr

/-- `BlogPost` entity. Optional fields are `Option`. -/
structure BlogPost where
  id : String
  title : String
  slug : String
  content : String
  excerpt : Option String
  authorId : String
  published : Bool
  publishedAt : Option String
  createdAt : String
  updatedAt : String
  tags : Option (List String)
  featuredImage : Option String
deriving DecidableEq, Repr

/-- `PageConfig` entity; the `config` record is an opaque JSON blob,
modelled as an opaque string. -/
structure PageConfig where
  id : String
  pageKey : String
  title : String
  description : Option String
  config : String
  createdAt : String
  updatedAt : String
deriving DecidableEq, Repr

/-- `Omit<TextContent, "id" | "createdAt" | "updatedAt">`. -/
structure NewTextContent where
  key : String
  content : String
deriving DecidableEq, Repr

/-- `Omit<BlogPost, "id" | "createdAt" | "updatedAt">`. -/
structure NewBlogPost where
  title : String
  slug : String
  content : String
  excerpt : Option String
  authorId : String
  published : Bool
  publishedAt : Option String
  tags : Option (List String)
  featuredImage : Option String
deriving DecidableEq, Repr

/-- `Omit<PageConfig, "id" | "createdAt" | "updatedAt">`. -/
structure NewPageConfig where
  pageKey : String
  title : String
  description : Option String
  config : String
deriving DecidableEq, Repr

/-- `Partial<Omit<TextContent, "id" | "createdAt">>`: the outer `Option`
is key presence in the partial object; a present key always holds a string
for this type. -/
structure TextContentUpdate where
  key : Option String
  content : Option String
  updatedAt : Option String
deriving DecidableEq, Repr

/-- `Partial<Omit<BlogPost, "id" | "createdAt">>`. For entity fields that
are themselves optional, the outer `Option` is key presence and the inner
`Option` the (possibly `undefined`) value, so `some none` is a key that is
present with value `undefined` — JS object spread and `!== undefined`
checks treat those two cases differently. -/
structure BlogPostUpdate where
  title : Option String
  slug : Option String
  content : Option String
  excerpt : Option (Option String)
  authorId : Option String
  published : Option Bool
  publishedAt : Option (Option String)
  updatedAt : Option String
  tags : Option (Option (List String))
  featuredImage : Option (Option String)
deriving DecidableEq, Repr

/-- `Partial<Omit<PageConfig, "id" | "createdAt">>`. -/
structure PageConfigUpdate where
  pageKey : Option String
  title : Option String
  description : Option (Option String)
  config : Option String
  updatedAt : Option String
deriving DecidableEq, Repr

/-! ## Ephemeral variant: `InMemoryCMSStorage` (src/cms-storage.ts)

Each instance holds three JS `Map`s. The clock (`new Date().toISOString()`)
and the generated ids are nondeterministic inputs and appear as explicit
parameters; where the source calls the clock twice inside one operation the
two readings are separate parameters. -/

/-- The private maps of one `InMemoryCMSStorage` instance. -/
structure InMemoryCMSStorage where
  textContent : List (String × TextContent)
  blogPosts : List (String × BlogPost)
  pageConfigs : List (String × PageConfig)
deriving DecidableEq, Repr

/-- The state of a freshly constructed `new InMemoryCMSStorage()`. -/
def InMemoryCMSStorage.fresh : InMemoryCMSStorage := ⟨[], [], []⟩

def InMemoryCMSStorage.saveTextContent (st : InMemoryCMSStorage)
    (c : NewTextContent) (now id : String) :
    TextContent × InMemoryCMSStorage :=
  let tc : TextContent := ⟨id, c.key, c.content, now, now⟩
  (tc, { st with textContent := mapSet st.textContent id tc })

def InMemoryCMSStorage.getTextContent (st : InMemoryCMSStorage) (id : String) :
    Option TextContent :=
  mapGet st.textContent id

def InMemoryCMSStorage.getTextContentByKey (st : InMemoryCMSStorage)
    (key : String) : Option TextContent :=
  ((st.textContent.map (fun p => p.2)).find? (fun c => c.key == key))

def InMemoryCMSStorage.listTextContent (st : InMemoryCMSStorage) :
    List TextContent :=
  st.textContent.map (fun p => p.2)

def InMemoryCMSStorage.updateTextContent (st : InMemoryCMSStorage)
    (id : String) (u : TextContentUpdate) (now : String) :
    Option TextContent × InMemoryCMSStorage :=
  match mapGet st.textContent id with
  | none => (none, st)
  | some existing =>
    let updated : TextContent :=
      { id := existing.id
        key := u.key.getD existing.key
        content := u.content.getD existing.content
        createdAt := existing.createdAt
        updatedAt := now }
    (some updated, { st with textContent := mapSet st.textContent id updated })

def InMemoryCMSStorage.deleteTextContent (st : InMemoryCMSStorage)
    (id : String) : Bool × InMemoryCMSStorage :=
  let d := mapDelete st.textContent id
  (d.1, { st with textContent := d.2 })

def InMemoryCMSStorage.saveBlogPost (st : InMemoryCMSStorage)
    (post : NewBlogPost) (now id : String) :
    BlogPost × InMemoryCMSStorage :=
  let blogPost : BlogPost :=
    { id := id
      title := post.title
      slug := post.slug
      content := post.content
      excerpt := post.excerpt
      authorId := post.authorId
      published := post.published
      publishedAt :=
        if post.published ∧ ¬ strTruthy post.publishedAt then some now
        else post.publishedAt
      createdAt := now
      updatedAt := now
      tags := post.tags
      featuredImage := post.featuredImage }
  (blogPost, { st with blogPosts := mapSet st.blogPosts id blogPost })

def InMemoryCMSStorage.getBlogPost (st : InMemoryCMSStorage) (id : String) :
    Option BlogPost :=
  mapGet st.blogPosts id

def InMemoryCMSStorage.getBlogPostBySlug (st : InMemoryCMSStorage)
    (slug : String) : Option BlogPost :=
  ((st.blogPosts.map (fun p => p.2)).find? (fun c => c.slug == slug))

def InMemoryCMSStorage.listBlogPosts (st : InMemoryCMSStorage)
    (published : Option Bool) : List BlogPost :=
  let posts := st.blogPosts.map (fun p => p.2)
  match published with
  | some b => posts.filter (fun p => p.published == b)
  | none => posts

/-- The merged entity built by the in-memory `updateBlogPost`
(`now` is the clock reading used for `updatedAt`, `nowP` the separate
reading used for `publishedAt`):
`{ ...existing, ...updates, updatedAt: now, publishedAt: <rule> }` — the
explicit `updatedAt`/`publishedAt` fields come after the spread, so a
caller-supplied value for either is discarded. -/
def mergeBlogPost (existing : BlogPost) (u : BlogPostUpdate)
    (now nowP : String) : BlogPost :=
  { id := existing.id
    title := u.title.getD existing.title
    slug := u.slug.getD existing.slug
    content := u.content.getD existing.content
    excerpt := match u.excerpt with
      | some e => e
      | none => existing.excerpt
    authorId := u.authorId.getD existing.authorId
    published := u.published.getD existing.published
    publishedAt :=
      if u.published.getD false ∧ ¬ strTruthy existing.publishedAt then
        some nowP
      else existing.publishedAt
    createdAt := existing.createdAt
    updatedAt := now
    tags := match u.tags with
      | some t => t
      | none => existing.tags
    featuredImage := match u.featuredImage with
      | some f => f
      | none => existing.featuredImage }

def InMemoryCMSStorage.updateBlogPost (st : InMemoryCMSStorage) (id : String)
    (u : BlogPostUpdate) (now nowP : String) :
    Option BlogPost × InMemoryCMSStorage :=
  match mapGet st.blogPosts id with
  | none => (none, st)
  | some existing =>
    let updated := mergeBlogPost existing u now nowP
    (some updated, { st with blogPosts := mapSet st.blogPosts id updated })

def InMemoryCMSStorage.deleteBlogPost (st : InMemoryCMSStorage) (id : String) :
    Bool × InMemoryCMSStorage :=
  let d := mapDelete st.blogPosts id
  (d.1, { st with blogPosts := d.2 })

def InMemoryCMSStorage.savePageConfig (st : InMemoryCMSStorage)
    (c : NewPageConfig) (now id : String) :
    PageConfig × InMemoryCMSStorage :=
  let pageConfig : PageConfig :=
    ⟨id, c.pageKey, c.title, c.description, c.config, now, now⟩
  (pageConfig, { st with pageConfigs := mapSet st.pageConfigs id pageConfig })

def InMemoryCMSStorage.getPageConfig (st : InMemoryCMSStorage) (id : String) :
    Option PageConfig :=
  mapGet st.pageConfigs id

def InMemoryCMSStorage.getPageConfigByKey (st : InMemoryCMSStorage)
    (pageKey : String) : Option PageConfig :=
  ((st.pageConfigs.map (fun p => p.2)).find? (fun c => c.pageKey == pageKey))

def InMemoryCMSStorage.listPageConfigs (st : InMemoryCMSStorage) :
    List PageConfig :=
  st.pageConfigs.map (fun p => p.2)

def InMemoryCMSStorage.updatePageConfig (st : InMemoryCMSStorage)
    (id : String) (u : PageConfigUpdate) (now : String) :
    Option PageConfig × InMemoryCMSStorage :=
  match mapGet st.pageConfigs id with
  | none => (none, st)
  | some existing =>
    let updated : PageConfig :=
      { id := existing.id
        pageKey := u.pageKey.getD existing.pageKey
        title := u.title.getD existing.title
        description := match u.description with
          | some d => d
          | none => existing.description
        config := u.config.getD existing.config
        createdAt := existing.createdAt
        updatedAt := now }
    (some updated, { st with pageConfigs := mapSet st.pageConfigs id updated })

def InMemoryCMSStorage.deletePageConfig (st : InMemoryCMSStorage)
    (id : String) : Bool × InMemoryCMSStorage :=
  let d := mapDelete st.pageConfigs id
  (d.1, { st with pageConfigs := d.2 })

/-! ## Durable variant: `SupabaseCMSStorage` (src/cms-storage-supabase.ts)

The remote database is a list of rows per table (persisted-column
spelling). A PostgREST `insert` fails on a unique-constraint violation
(`key` / `slug` / `page_key`), an `update ... .single()` of a missing row
yields an error that the source turns into `null`, and a `delete` of a
missing row is not an error. Row ids and timestamps are explicit
parameters. Every issued query is recorded together with the client it was
issued through (`self.client` is the constructor-bound `this.client`,
`mod` the module-level default `supabase` client; these methods are only
reachable when the module client is configured). -/

structure TextRow where
  id : String
  key : String
  content : String
  created_at : String
  updated_at : String
deriving DecidableEq, Repr

structure BlogRow where
  id : String
  title : String
  slug : String
  content : String
  excerpt : Option String
  author_id : String
  published : Bool
  published_at : Option String
  created_at : String
  updated_at : String
  tags : Option (List String)
  featured_image : Option String
deriving DecidableEq, Repr

structure ConfigRow where
  id : String
  page_key : String
  title : String
  description : Option String
  config : String
  created_at : String
  updated_at : String
deriving DecidableEq, Repr

structure SupaDB where
  text_content : List TextRow
  blog_posts : List BlogRow
  page_configs : List ConfigRow
deriving DecidableEq, Repr

/-- Result of one storage operation against the remote database: the
returned value, the database afterwards, and the clients used for the
issued queries, in order. -/
structure SupaResult (α : Type) where
  value : α
  db : SupaDB
  clients : List ClientRef
deriving Repr

/-- One `SupabaseCMSStorage` instance; the constructor runs
`this.client = client || supabase`. -/
structure SupabaseCMSStorage where
  client : ClientRef
deriving DecidableEq, Repr

/-- `new SupabaseCMSStorage(client?)` given the module client `mod`. -/
def SupabaseCMSStorage.make (client : Option ClientRef) (mod : ClientRef) :
    SupabaseCMSStorage :=
  ⟨client.getD mod⟩

/-- Row-to-entity mapping for text content. -/
def TextRow.toEntity (r : TextRow) : TextContent :=
  ⟨r.id, r.key, r.content, r.created_at, r.updated_at⟩

/-- Row-to-entity mapping for blog posts, mirroring the source's
`data.excerpt || undefined` etc. (empty strings collapse to absent). -/
def BlogRow.toEntity (r : BlogRow) : BlogPost :=
  { id := r.id
    title := r.title
    slug := r.slug
    content := r.content
    excerpt := jsOrNull r.excerpt
    authorId := r.author_id
    published := r.published
    publishedAt := jsOrNull r.published_at
    createdAt := r.created_at
    updatedAt := r.updated_at
    tags := r.tags
    featuredImage := jsOrNull r.featured_image }

def ConfigRow.toEntity (r : ConfigRow) : PageConfig :=
  ⟨r.id, r.page_key, r.title, jsOrNull r.description, r.config,
    r.created_at, r.updated_at⟩

def SupabaseCMSStorage.saveTextContent (self : SupabaseCMSStorage)
    (db : SupaDB) (c : NewTextContent) (now newId : String) :
    SupaResult (Option TextContent) :=
  if db.text_content.any (fun r => r.key == c.key) then
    ⟨none, db, [self.client]⟩
  else
    let row : TextRow := ⟨newId, c.key, c.content, now, now⟩
    ⟨some row.toEntity, { db with text_content := db.text_content ++ [row] },
      [self.client]⟩

def SupabaseCMSStorage.getTextContent (self : SupabaseCMSStorage)
    (db : SupaDB) (id : String) : SupaResult (Option TextContent) :=
  ⟨(db.text_content.find? (fun r => r.id == id)).map TextRow.toEntity, db,
    [self.client]⟩

def SupabaseCMSStorage.getTextContentByKey (self : SupabaseCMSStorage)
    (db : SupaDB) (key : String) : SupaResult (Option TextContent) :=
  ⟨(db.text_content.find? (fun r => r.key == key)).map TextRow.toEntity, db,
    [self.client]⟩

def SupabaseCMSStorage.listTextContent (self : SupabaseCMSStorage)
    (db : SupaDB) : SupaResult (List TextContent) :=
  ⟨db.text_content.map TextRow.toEntity, db, [self.client]⟩

/-- `updateTextContent`: note that the source issues the update through the
module-level `supabase` client, not `this.client`. -/
def SupabaseCMSStorage.updateTextContent (_self : SupabaseCMSStorage)
    (mod : ClientRef) (db : SupaDB) (id : String) (u : TextContentUpdate)
    (now : String) : SupaResult (Option TextContent) :=
  match db.text_content.find? (fun r => r.id == id) with
  | none => ⟨none, db, [mod]⟩
  | some r =>
    let r2 : TextRow :=
      { r with
        updated_at := now
        key := u.key.getD r.key
        content := u.content.getD r.content }
    ⟨some r2.toEntity,
      { db with text_content :=
          db.text_content.map (fun x => if x.id == id then r2 else x) },
      [mod]⟩

/-- `deleteTextContent`: issued through the module-level client; returns
`!error`, which is `true` whether or not a row with the id existed. -/
def SupabaseCMSStorage.deleteTextContent (_self : SupabaseCMSStorage)
    (mod : ClientRef) (db : SupaDB) (id : String) : SupaResult Bool :=
  ⟨true, { db with text_content :=
      db.text_content.filter (fun r => ¬ (r.id == id)) }, [mod]⟩

/-- `saveBlogPost`: issued through the module-level client. The inserted
`published_at` is `post.published && !post.publishedAt ? now :
post.publishedAt || null`. -/
def SupabaseCMSStorage.saveBlogPost (_self : SupabaseCMSStorage)
    (mod : ClientRef) (db : SupaDB) (post : NewBlogPost) (now newId : String) :
    SupaResult (Option BlogPost) :=
  if db.blog_posts.any (fun r => r.slug == post.slug) then
    ⟨none, db, [mod]⟩
  else
    let row : BlogRow :=
      { id := newId
        title := post.title
        slug := post.slug
        content := post.content
        excerpt := jsOrNull post.excerpt
        author_id := post.authorId
        published := post.published
        published_at :=
          if post.published ∧ ¬ strTruthy post.publishedAt then some now
          else jsOrNull post.publishedAt
        created_at := now
        updated_at := now
        tags := post.tags
        featured_image := jsOrNull post.featuredImage }
    ⟨some row.toEntity, { db with blog_posts := db.blog_posts ++ [row] }, [mod]⟩

def SupabaseCMSStorage.getBlogPost (self : SupabaseCMSStorage) (db : SupaDB)
    (id : String) : SupaResult (Option BlogPost) :=
  ⟨(db.blog_posts.find? (fun r => r.id == id)).map BlogRow.toEntity, db,
    [self.client]⟩

def SupabaseCMSStorage.getBlogPostBySlug (self : SupabaseCMSStorage)
    (db : SupaDB) (slug : String) : SupaResult (Option BlogPost) :=
  ⟨(db.blog_posts.find? (fun r => r.slug == slug)).map BlogRow.toEntity, db,
    [self.client]⟩

def SupabaseCMSStorage.listBlogPosts (self : SupabaseCMSStorage) (db : SupaDB)
    (published : Option Bool) : SupaResult (List BlogPost) :=
  let rows : List BlogRow := match published with
    | some b => db.blog_posts.filter (fun r => r.published == b)
    | none => db.blog_posts
  ⟨rows.map BlogRow.toEntity, db, [self.client]⟩

/-- The `published_at` assignment decision of the Durable
`updateBlogPost`: only when the partial carries `published: true` is the
existing post read, and `published_at` is stamped only when that post's
`publishedAt` is unset (`data.published_at || undefined` is falsy). -/
def blogPubPatch (db : SupaDB) (id : String) (u : BlogPostUpdate)
    (nowP : String) : Option (Option String) :=
  if u.published = some true then
    match db.blog_posts.find? (fun r => r.id == id) with
    | some r =>
      if ¬ strTruthy (jsOrNull r.published_at) then some (some nowP) else none
    | none => none
  else none

/-- The column assignments of the Durable `updateBlogPost` applied to the
matched row (`updates.publishedAt` is never read). -/
def patchBlogRow (r : BlogRow) (u : BlogPostUpdate) (now : String)
    (pubPatch : Option (Option String)) : BlogRow :=
  { r with
    updated_at := now
    title := u.title.getD r.title
    slug := u.slug.getD r.slug
    content := u.content.getD r.content
    excerpt := match u.excerpt with
      | some (some e) => some e
      | _ => r.excerpt
    author_id := u.authorId.getD r.author_id
    published := u.published.getD r.published
    published_at := match pubPatch with
      | some v => v
      | none => r.published_at
    tags := match u.tags with
      | some (some t) => some t
      | _ => r.tags
    featured_image := match u.featuredImage with
      | some (some f) => some f
      | _ => r.featured_image }

/-- `updateBlogPost` of the Durable variant: the conditional existence
read goes through `this.client`, the update itself through the
module-level `supabase` client. -/
def SupabaseCMSStorage.updateBlogPost (self : SupabaseCMSStorage)
    (mod : ClientRef) (db : SupaDB) (id : String) (u : BlogPostUpdate)
    (now nowP : String) : SupaResult (Option BlogPost) :=
  let readClients : List ClientRef :=
    if u.published = some true then [self.client] else []
  match db.blog_posts.find? (fun r => r.id == id) with
  | none => ⟨none, db, readClients ++ [mod]⟩
  | some r =>
    let r2 := patchBlogRow r u now (blogPubPatch db id u nowP)
    ⟨some r2.toEntity,
      { db with blog_posts :=
          db.blog_posts.map (fun x => if x.id == id then r2 else x) },
      readClients ++ [mod]⟩

def SupabaseCMSStorage.deleteBlogPost (_self : SupabaseCMSStorage)
    (mod : ClientRef) (db : SupaDB) (id : String) : SupaResult Bool :=
  ⟨true, { db with blog_posts :=
      db.blog_posts.filter (fun r => ¬ (r.id == id)) }, [mod]⟩

def SupabaseCMSStorage.savePageConfig (_self : SupabaseCMSStorage)
    (mod : ClientRef) (db : SupaDB) (c : NewPageConfig) (now newId : String) :
    SupaResult (Option PageConfig) :=
  if db.page_configs.any (fun r => r.page_key == c.pageKey) then
    ⟨none, db, [mod]⟩
  else
    let row : ConfigRow :=
      ⟨newId, c.pageKey, c.title, jsOrNull c.description, c.config, now, now⟩
    ⟨some row.toEntity, { db with page_configs := db.page_configs ++ [row] },
      [mod]⟩

def SupabaseCMSStorage.getPageConfig (self : SupabaseCMSStorage) (db : SupaDB)
    (id : String) : SupaResult (Option PageConfig) :=
  ⟨(db.page_configs.find? (fun r => r.id == id)).map ConfigRow.toEntity, db,
    [self.client]⟩

def SupabaseCMSStorage.getPageConfigByKey (self : SupabaseCMSStorage)
    (db : SupaDB) (pageKey : String) : SupaResult (Option PageConfig) :=
  ⟨(db.page_configs.find? (fun r => r.page_key == pageKey)).map
      ConfigRow.toEntity, db, [self.client]⟩

def SupabaseCMSStorage.listPageConfigs (self : SupabaseCMSStorage)
    (db : SupaDB) : SupaResult (List PageConfig) :=
  ⟨db.page_configs.map ConfigRow.toEntity, db, [self.client]⟩

def SupabaseCMSStorage.updatePageConfig (_self : SupabaseCMSStorage)
    (mod : ClientRef) (db : SupaDB) (id : String) (u : PageConfigUpdate)
    (now : String) : SupaResult (Option PageConfig) :=
  match db.page_configs.find? (fun r => r.id == id) with
  | none => ⟨none, db, [mod]⟩
  | some r =>
    let r2 : ConfigRow :=
      { r with
        updated_at := now
        page_key := u.pageKey.getD r.page_key
        title := u.title.getD r.title
        description := match u.description with
          | some (some d) => some d
          | _ => r.description
        config := u.config.getD r.config }
    ⟨some r2.toEntity,
      { db with page_configs :=
          db.page_configs.map (fun x => if x.id == id then r2 else x) },
      [mod]⟩

def SupabaseCMSStorage.deletePageConfig (_self : SupabaseCMSStorage)
    (mod : ClientRef) (db : SupaDB) (id : String) : SupaResult Bool :=
  ⟨true, { db with page_configs :=
      db.page_configs.filter (fun r => ¬ (r.id == id)) }, [mod]⟩

/-! ## Backend selector (`getCMSStorage` in src/cms.ts) -/

/-- The storage instance a route handler works with for one request. -/
inductive CMSStorageChoice where
  | supabaseStorage (s : SupabaseCMSStorage)
  | inMemory (st : InMemoryCMSStorage)
deriving DecidableEq, Repr

/-- `getCMSStorage(supabaseClient?)` from src/cms.ts: called inside every
route handler. When the module client is unavailable it constructs a brand
new `InMemoryCMSStorage` whose maps start empty. -/
def getCMSStorage (supabase : Option ClientRef)
    (supabaseClient : Option ClientRef) : CMSStorageChoice :=
  match supabase, supabaseClient with
  | some _, some c => .supabaseStorage ⟨c⟩
  | some mod, none => .supabaseStorage ⟨mod⟩
  | none, _ => .inMemory InMemoryCMSStorage.fresh

/-! ### Concrete fixtures used to instantiate the storage theorems -/

def samplePublishedPost : BlogPost :=
  ⟨"b1", "t", "s", "c", none, "a", true, some "T1", "T0", "T0", none, none⟩

def sampleUnpubPost : BlogPost :=
  ⟨"b2", "t", "s", "c", none, "a", false, none, "T0", "T0", none, none⟩

def sampleStPub : InMemoryCMSStorage := ⟨[], [("b1", samplePublishedPost)], []⟩

def sampleStUnpub : InMemoryCMSStorage := ⟨[], [("b2", sampleUnpubPost)], []⟩

def samplePubUpdate : BlogPostUpdate :=
  ⟨none, none, none, none, none, some true, none, none, none, none⟩

def sampleNewPub : NewBlogPost := ⟨"t", "s", "c", none, "a", true, none, none, none⟩

def sampleRowPub : BlogRow :=
  ⟨"b1", "t", "s", "c", none, "a", true, some "T1", "T0", "T0", none, none⟩

def sampleRowUnpub : BlogRow :=
  ⟨"b2", "t", "s", "c", none, "a", false, none, "T0", "T0", none, none⟩

def sampleDbPub : SupaDB := ⟨[], [sampleRowPub], []⟩

def sampleDbUnpub : SupaDB := ⟨[], [sampleRowUnpub], []⟩

def emptyDb : SupaDB := ⟨[], [], []⟩

/-! ## Sanitizer (src/supabase.ts, sanitize section)

`sanitizeHTML` first runs DOMPurify with `SANITIZE_CONFIG` and then applies
five regex post-processing passes; `sanitizePlainText` runs DOMPurify with
an empty tag allow-list. `SANITIZE_CONFIG` (the allow/forbid lists and
`ALLOWED_URI_REGEXP`) and the regex passes are transcribed from the source.

The DOMPurify engine itself is an external library. Modelled from the
spec: an allow-list transformation that parses the input as HTML, removes
elements and attributes outside the permitted sets (dropping the contents
of raw-text elements such as script/style, and keeping child content of
other disallowed elements), filters the URL-bearing attributes `href`/`src`
through the protocol allow-list after discarding embedded whitespace, and
serializes the result back to a string. The HTML parsing model is
simplified in ways that do not affect the inputs analysed here: every `<`
opens a markup chunk that ends at the first `>`; an unterminated chunk at
end of input is discarded; a close tag matching the innermost open element
closes it, and any other close tag is discarded. -/

/-- The double-quote character. -/
def quoteD : Char := Char.ofNat 34

/-- The single-quote character. -/
def quoteS : Char := Char.ofNat 39

def isQuote (c : Char) : Bool := c = quoteD ∨ c = quoteS

def isWordChar (c : Char) : Bool := c.isAlphanum ∨ c = '_'

/-! ### Text escaping and entity decoding -/

/-- Serialization of one text character (the HTML fragment serialization
algorithm escapes `&`, `<` and `>` in text). -/
def encodeTextChar (c : Char) : List Char :=
  if c = '&' then "&amp;".toList
  else if c = '<' then "&lt;".toList
  else if c = '>' then "&gt;".toList
  else [c]

def encodeText : List Char → List Char
  | [] => []
  | c :: cs => encodeTextChar c ++ encodeText cs

/-- Serialization of one attribute-value character (escapes `&` and `"`). -/
def encodeAttrChar (c : Char) : List Char :=
  if c = '&' then "&amp;".toList
  else if c = quoteD then "&quot;".toList
  else [c]

def encodeAttrText : List Char → List Char
  | [] => []
  | c :: cs => encodeAttrChar c ++ encodeAttrText cs

/-- Entity decoding for the entities this model's serializer can emit. -/
def decodeEntities : List Char → List Char
  | [] => []
  | '&' :: 'a' :: 'm' :: 'p' :: ';' :: r => '&' :: decodeEntities r
  | '&' :: 'l' :: 't' :: ';' :: r => '<' :: decodeEntities r
  | '&' :: 'g' :: 't' :: ';' :: r => '>' :: decodeEntities r
  | '&' :: 'q' :: 'u' :: 'o' :: 't' :: ';' :: r => quoteD :: decodeEntities r
  | c :: cs => c :: decodeEntities cs

/-! ### Chunking: split the input at markup boundaries -/

inductive Chunk where
  | text (cs : List Char)
  | tag (cs : List Char)
deriving DecidableEq, Repr

/-- Split off everything before the first `>`; `none` when there is no
`>` (unterminated markup at end of input). -/
def splitUntilGt : List Char → List Char × Option (List Char)
  | [] => ([], none)
  | c :: cs =>
    if c = '>' then ([], some cs)
    else
      let p := splitUntilGt cs
      (c :: p.1, p.2)

def consTextChunk (c : Char) : List Chunk → List Chunk
  | Chunk.text t :: ks => Chunk.text (c :: t) :: ks
  | ks => Chunk.text [c] :: ks

/-- Chunking driver; each step consumes at least one character, so fuel
`length + 1` always suffices. -/
def splitChunksAux : Nat → List Char → List Chunk
  | 0, _ => []
  | _ + 1, [] => []
  | fuel + 1, c :: cs =>
    if c = '<' then
      match splitUntilGt cs with
      | (inner, some rest) => Chunk.tag inner :: splitChunksAux fuel rest
      | (_, none) => []
    else
      consTextChunk c (splitChunksAux fuel cs)

def splitChunks (cs : List Char) : List Chunk :=
  splitChunksAux (cs.length + 1) cs

/-! ### Tag parsing -/

/-- A parsed attribute (name lowercased, value entity-decoded). -/
structure Attr where
  name : String
  value : String
deriving DecidableEq, Repr

inductive HToken where
  | text (s : List Char)
  | startTag (name : String) (attrs : List Attr)
  | endTag (name : String)
deriving DecidableEq, Repr

/-- Attribute-list parsing inside a start tag (between the tag name and
the closing `>`), following the HTML tokenizer: optional whitespace and
stray `/`, attribute name up to whitespace/`=`/`/`, optional `= value`
with the value either quoted (ending at the matching quote) or unquoted
(ending at whitespace). Only invoked on markup chunks, hence fueled by the
chunk length. -/
def parseAttrsAux : Nat → List Char → List Attr
  | 0, _ => []
  | _ + 1, [] => []
  | fuel + 1, c :: cs =>
    if isWsChar c ∨ c = '/' ∨ c = '=' then parseAttrsAux fuel cs
    else
      let name := (c :: cs).takeWhile
        (fun x => ¬ (isWsChar x ∨ x = '=' ∨ x = '/'))
      let r1 := (c :: cs).drop name.length
      let r2 := r1.dropWhile isWsChar
      match r2 with
      | '=' :: r3 =>
        let r4 := r3.dropWhile isWsChar
        match r4 with
        | q :: r5 =>
          if isQuote q then
            let v := r5.takeWhile (fun x => ¬ (x = q))
            let r6 := (r5.drop v.length).drop 1
            ⟨lowerStr (String.mk name), String.mk (decodeEntities v)⟩ ::
              parseAttrsAux fuel r6
          else
            let v := r4.takeWhile (fun x => ¬ isWsChar x)
            ⟨lowerStr (String.mk name), String.mk (decodeEntities v)⟩ ::
              parseAttrsAux fuel (r4.drop v.length)
        | [] => [⟨lowerStr (String.mk name), ""⟩]
      | _ =>
        ⟨lowerStr (String.mk name), ""⟩ :: parseAttrsAux fuel r2

def parseAttrs (cs : List Char) : List Attr := parseAttrsAux (cs.length + 1) cs

/-- Duplicate attributes: the first occurrence of a name wins (fueled by
the list length, which bounds the recursion depth). -/
def dedupAttrsAux : Nat → List Attr → List Attr
  | 0, _ => []
  | _ + 1, [] => []
  | fuel + 1, a :: rest =>
    a :: dedupAttrsAux fuel (rest.filter (fun b => ¬ (b.name == a.name)))

def dedupAttrs (l : List Attr) : List Attr := dedupAttrsAux (l.length + 1) l

/-- Turn one markup chunk into a token: `/name...` is an end tag, a chunk
starting with a letter is a start tag (the tag name extends to the first
whitespace or `/`, so malformed names simply fail the allow-list later),
anything else (comments, doctype, stray `<>`) is discarded. -/
def tagChunkToToken (inner : List Char) : Option HToken :=
  match inner with
  | [] => none
  | '/' :: rest =>
    some (.endTag (lowerStr (String.mk
      (rest.takeWhile (fun x => ¬ (isWsChar x ∨ x = '/'))))))
  | c :: _ =>
    if c.isAlpha then
      let name := inner.takeWhile (fun x => ¬ (isWsChar x ∨ x = '/'))
      some (.startTag (lowerStr (String.mk name))
        (dedupAttrs (parseAttrs (inner.drop name.length))))
    else none

def chunkToToken : Chunk → Option HToken
  | .text t => some (.text (decodeEntities t))
  | .tag inner => tagChunkToToken inner

def tokensOfChunks (ks : List Chunk) : List HToken :=
  ks.filterMap chunkToToken

/-! ### Tree building -/

inductive HNode where
  | text (s : List Char)
  | elem (name : String) (attrs : List Attr) (children : List HNode)
deriving Repr

/-- HTML void elements: serialized without a closing tag, never hold
children. -/
def voidTags : List String :=
  ["area", "base", "br", "col", "embed", "hr", "img", "input", "link",
   "meta", "param", "source", "track", "wbr"]

/-- Open-element stack (children collected in reverse) plus completed
top-level nodes (in reverse). -/
structure Builder where
  stack : List (String × List Attr × List HNode)
  top : List HNode

def pushNode (b : Builder) (n : HNode) : Builder :=
  match b.stack with
  | [] => { b with top := n :: b.top }
  | (nm, ats, kids) :: rest => { b with stack := (nm, ats, n :: kids) :: rest }

def buildStep (b : Builder) : HToken → Builder
  | .text s => pushNode b (.text s)
  | .startTag name ats =>
    if voidTags.contains name then pushNode b (.elem name ats [])
    else { b with stack := (name, ats, []) :: b.stack }
  | .endTag name =>
    match b.stack with
    | (nm, ats, kids) :: rest =>
      if nm = name then
        pushNode { b with stack := rest } (.elem nm ats kids.reverse)
      else b
    | [] => b

/-- Close every element still open at end of input (fueled by the stack
depth, which shrinks by one per step). -/
def closeAllAux : Nat → Builder → List HNode
  | 0, b => b.top.reverse
  | _ + 1, ⟨[], top⟩ => top.reverse
  | fuel + 1, ⟨(nm, ats, kids) :: rest, top⟩ =>
    closeAllAux fuel (pushNode ⟨rest, top⟩ (.elem nm ats kids.reverse))

def closeAll (b : Builder) : List HNode :=
  closeAllAux (b.stack.length + 1) b

def buildTree (ts : List HToken) : List HNode :=
  closeAll (ts.foldl buildStep ⟨[], []⟩)

/-- Parse a string into the node forest. -/
def parseHTML (cs : List Char) : List HNode :=
  buildTree (tokensOfChunks (splitChunks cs))

/-! ### Allow-list filtering -/

/-- The tag/attribute policy handed to the engine. -/
structure SanitizeCfg where
  allowedTags : List String
  forbidTags : List String
  allowedAttrs : List String
  forbidAttrs : List String
deriving Repr

/-- Elements whose raw contents are discarded along with the element when
the element itself is disallowed (DOMPurify keeps the child content of
other disallowed elements). -/
def forbidContentsTags : List String :=
  ["audio", "colgroup", "head", "iframe", "math", "noembed", "noframes",
   "noscript", "plaintext", "script", "style", "svg", "template", "title",
   "video", "xmp"]

/-- DOMPurify discards these characters from an attribute value before
testing it against the URI allow-list. -/
def isAttrWsChar (c : Char) : Bool :=
  c.toNat ≤ 0x20 ∨ c.toNat = 0xA0 ∨ c.toNat = 0x1680 ∨ c.toNat = 0x180E ∨
  (0x2000 ≤ c.toNat ∧ c.toNat ≤ 0x2029) ∨ c.toNat = 0x205F ∨
  c.toNat = 0x3000

def isSchemeChar (c : Char) : Bool :=
  c.isAlpha ∨ c = '+' ∨ c = '.' ∨ c = '-'

/-- List-level literal prefix test. -/
def litPre : List Char → List Char → Bool
  | [], _ => true
  | _ :: _, [] => false
  | p :: ps, c :: cs => p = c && litPre ps cs

/-- `ALLOWED_URI_REGEXP` from `SANITIZE_CONFIG` (src/supabase.ts):
`/^(?:(?:(?:f|ht)tps?|mailto|tel|callto|sms|cid|xmpp|data):|[^a-z]|[a-z+.\-]+(?:[^a-z+.\-:]|$))/i`
— a listed scheme, or a first character that is not a letter, or a
scheme-like word not followed by a colon. -/
def uriAllowed (v : List Char) : Bool :=
  let lv := v.map Char.toLower
  (["ftp:", "ftps:", "http:", "https:", "mailto:", "tel:", "callto:",
    "sms:", "cid:", "xmpp:", "data:"].any (fun p => litPre p.toList lv)) ||
  (match v with
   | [] => false
   | c :: _ =>
     (! c.isAlpha) ||
     (let run := v.takeWhile isSchemeChar
      let rest := v.drop run.length
      (! run.isEmpty) && (rest.isEmpty || ! (rest.head? == some ':'))))

/-- URL-bearing attributes under `SANITIZE_CONFIG` are `href` and `src`. -/
def keepAttr (cfg : SanitizeCfg) (a : Attr) : Bool :=
  cfg.allowedAttrs.contains a.name && ! cfg.forbidAttrs.contains a.name &&
  (if a.name = "href" ∨ a.name = "src" then
    uriAllowed (a.value.toList.filter (fun c => ¬ isAttrWsChar c))
  else true)

/-- Allow-list filtering of one node, fueled by the tree depth (each
recursive step descends one level). -/
def filterNode : Nat → SanitizeCfg → HNode → List HNode
  | 0, _, _ => []
  | _ + 1, _, .text s => [.text s]
  | fuel + 1, cfg, .elem name ats kids =>
    let fkids := (kids.map (filterNode fuel cfg)).flatten
    if cfg.allowedTags.contains name ∧ ¬ cfg.forbidTags.contains name then
      [.elem name (ats.filter (keepAttr cfg)) fkids]
    else if forbidContentsTags.contains name then []
    else fkids

def filterNodes (fuel : Nat) (cfg : SanitizeCfg) (ns : List HNode) :
    List HNode :=
  (ns.map (filterNode fuel cfg)).flatten

/-! ### Serialization -/

def serializeAttr (a : Attr) : List Char :=
  ' ' :: a.name.toList ++ '=' :: quoteD :: encodeAttrText a.value.toList ++
    [quoteD]

/-- Fragment serialization of one node, fueled by the tree depth. -/
def serializeNode : Nat → HNode → List Char
  | 0, _ => []
  | _ + 1, .text s => encodeText s
  | fuel + 1, .elem name ats kids =>
    '<' :: name.toList ++ (ats.map serializeAttr).flatten ++ ['>'] ++
      (if voidTags.contains name then []
       else (kids.map (serializeNode fuel)).flatten ++
         '<' :: '/' :: name.toList ++ ['>'])

def serializeNodes (fuel : Nat) (ns : List HNode) : List Char :=
  (ns.map (serializeNode fuel)).flatten

/-- Modelled from the spec: `DOMPurify.sanitize(html, cfg)` — parse,
filter by the allow-list policy, serialize. The depth of a tree parsed
from `cs` is at most `cs.length + 1`, so that fuel suffices for both
tree traversals. -/
def domPurify (cfg : SanitizeCfg) (cs : List Char) : List Char :=
  serializeNodes (cs.length + 1)
    (filterNodes (cs.length + 1) cfg (parseHTML cs))

/-! ### `SANITIZE_CONFIG` (transcribed from src/supabase.ts) -/

def ALLOWED_TAGS : List String :=
  ["p", "br", "strong", "em", "u", "s", "h1", "h2", "h3", "h4", "h5", "h6",
   "ul", "ol", "li", "blockquote", "a", "img", "code", "pre", "span", "div",
   "table", "thead", "tbody", "tr", "th", "td", "hr"]

def ALLOWED_ATTR : List String :=
  ["href", "title", "alt", "src", "width", "height", "class", "id",
   "target", "rel"]

def FORBID_TAGS : List String :=
  ["script", "iframe", "object", "embed", "form", "input", "button", "style"]

def FORBID_ATTR : List String :=
  ["onerror", "onload", "onclick", "onmouseover", "onfocus", "onblur",
   "onchange", "onsubmit", "style"]

def SANITIZE_CONFIG : SanitizeCfg :=
  ⟨ALLOWED_TAGS, FORBID_TAGS, ALLOWED_ATTR, FORBID_ATTR⟩

/-- The configuration of the `sanitizePlainText` call
(`{ ALLOWED_TAGS: [] }`): no element survives. -/
def PLAIN_CONFIG : SanitizeCfg := ⟨[], [], [], []⟩

/-! ### The regex post-processing passes of `sanitizeHTML`

Each JS `String.replace(/…/gi, …)` call is a left-to-right scan: at every
index the engine tries to match, replaces non-overlapping matches and
resumes after them, else moves on one character. For these particular
patterns greedy repetition is deterministic (every repeated class is
disjoint from what must follow), so each pattern is implemented as a
straight-line matcher. Matchers return the remaining input after the
match; every match consumes at least one character, so the generic driver
can be fueled by the input length. -/

/-- Case-insensitive literal match (JS `i` flag); returns the rest. -/
def matchCI : List Char → List Char → Option (List Char)
  | [], cs => some cs
  | _ :: _, [] => none
  | p :: ps, c :: cs => if c.toLower = p.toLower then matchCI ps cs else none

def matchCIs (pat : String) (cs : List Char) : Option (List Char) :=
  matchCI pat.toList cs

/-- Case-insensitive substring search. -/
def containsCI (pat : String) : List Char → Bool
  | [] => (matchCIs pat []).isSome
  | c :: cs => (matchCIs pat (c :: cs)).isSome || containsCI pat cs

/-- Generic pass driver: `tryM` returns `(replacement, rest)` on a match
starting at the head. -/
def scanPassAux (tryM : List Char → Option (List Char × List Char)) :
    Nat → List Char → List Char
  | 0, cs => cs
  | _ + 1, [] => []
  | fuel + 1, c :: cs =>
    match tryM (c :: cs) with
    | some (emit, rest) => emit ++ scanPassAux tryM fuel rest
    | none => c :: scanPassAux tryM fuel cs

def runPass (tryM : List Char → Option (List Char × List Char))
    (cs : List Char) : List Char :=
  scanPassAux tryM (cs.length + 1) cs

/-- Wrap a deletion matcher (replacement is empty). -/
def delPass (tryM : List Char → Option (List Char)) (cs : List Char) :
    List Char :=
  runPass (fun l => (tryM l).map (fun r => (([] : List Char), r))) cs

/-- Pass 1 matcher:
`/\s+(href|src)\s*=\s*["']?(javascript|data|vbscript):[^"'\s>]*/gi`. -/
def tryUrlStrip (cs : List Char) : Option (List Char) :=
  let ws := cs.takeWhile isWsChar
  if ws.isEmpty then none
  else
    let r1 := cs.drop ws.length
    match (matchCIs "href" r1).orElse (fun _ => matchCIs "src" r1) with
    | none => none
    | some r2 =>
      match r2.dropWhile isWsChar with
      | '=' :: r3 =>
        let r4 := r3.dropWhile isWsChar
        let r5 := match r4 with
          | q :: rest => if isQuote q then rest else r4
          | [] => r4
        match (matchCIs "javascript:" r5).orElse (fun _ =>
            (matchCIs "data:" r5).orElse (fun _ => matchCIs "vbscript:" r5)) with
        | none => none
        | some r6 =>
          some (r6.dropWhile (fun c => ¬ (isQuote c ∨ isWsChar c ∨ c = '>')))
      | _ => none

/-- Pass 2 matcher: `/\s+on\w+\s*=\s*["'][^"']*["']/gi`. -/
def tryHandlerStrip (cs : List Char) : Option (List Char) :=
  let ws := cs.takeWhile isWsChar
  if ws.isEmpty then none
  else
    let r1 := cs.drop ws.length
    match matchCIs "on" r1 with
    | none => none
    | some r2 =>
      let w := r2.takeWhile isWordChar
      if w.isEmpty then none
      else
        match (r2.drop w.length).dropWhile isWsChar with
        | '=' :: r3 =>
          match r3.dropWhile isWsChar with
          | q :: r4 =>
            if isQuote q then
              match (r4.dropWhile (fun c => ¬ isQuote c)) with
              | q2 :: r5 => if isQuote q2 then some r5 else none
              | [] => none
            else none
          | [] => none
        | _ => none

/-- Pass 3 matcher: `/\s+style\s*=\s*["'][^"']*["']/gi`. -/
def tryStyleStrip (cs : List Char) : Option (List Char) :=
  let ws := cs.takeWhile isWsChar
  if ws.isEmpty then none
  else
    let r1 := cs.drop ws.length
    match matchCIs "style" r1 with
    | none => none
    | some r2 =>
      match r2.dropWhile isWsChar with
      | '=' :: r3 =>
        match r3.dropWhile isWsChar with
        | q :: r4 =>
          if isQuote q then
            match (r4.dropWhile (fun c => ¬ isQuote c)) with
            | q2 :: r5 => if isQuote q2 then some r5 else none
            | [] => none
          else none
        | [] => none
      | _ => none

/-- Does `href\s*=` match at the head? -/
def hrefEqAt (cs : List Char) : Bool :=
  match matchCIs "href" cs with
  | some r =>
    (match r.dropWhile isWsChar with
     | '=' :: _ => true
     | _ => false)
  | none => false

/-- Search for `href\s*=` anywhere. -/
def searchHrefEq : List Char → Bool
  | [] => false
  | c :: rest => hrefEqAt (c :: rest) || searchHrefEq rest

/-- Does `<a[^>]*href\s*=` match at the head? -/
def anchorHrefEqAt (cs : List Char) : Bool :=
  match matchCIs "<a" cs with
  | some r1 => searchHrefEq (r1.takeWhile (fun c => ¬ (c = '>')))
  | none => false

/-- The test `/<a[^>]*href\s*=/i` run by pass 4 on its match. -/
def hasAnchorHrefEq : List Char → Bool
  | [] => false
  | c :: rest => anchorHrefEqAt (c :: rest) || hasAnchorHrefEq rest

/-- Pass 4 matcher: `/<a\s*[^>]*>\s*([^<]*)<\/a>/gi` with the source's
callback — an anchor-shaped run whose opening tag has no `href=` is
replaced by its captured content, otherwise kept verbatim. Returns
`(replacement, rest)`. -/
def tryEmptyAnchorUnwrap (cs : List Char) : Option (List Char × List Char) :=
  match matchCIs "<a" cs with
  | none => none
  | some r1 =>
    match splitUntilGt r1 with
    | (_, none) => none
    | (_, some r2) =>
      let r3 := r2.dropWhile isWsChar
      let content := r3.takeWhile (fun c => ¬ (c = '<'))
      let r4 := r3.drop content.length
      match matchCIs "</a>" r4 with
      | none => none
      | some r5 =>
        let matched := cs.take (cs.length - r5.length)
        if hasAnchorHrefEq matched then some (matched, r5)
        else some (content, r5)

/-- The test `/href\s*=\s*["']?(javascript|data|vbscript):/i` run by the
rel-injection pass on its captured attribute text. -/
def dangerHrefAt (cs : List Char) : Bool :=
  match matchCIs "href" cs with
  | none => false
  | some r =>
    (match r.dropWhile isWsChar with
     | '=' :: r2 =>
       let r3 := r2.dropWhile isWsChar
       let r4 := match r3 with
         | q :: rest => if isQuote q then rest else r3
         | [] => r3
       ((matchCIs "javascript:" r4).orElse (fun _ =>
         (matchCIs "data:" r4).orElse (fun _ =>
           matchCIs "vbscript:" r4))).isSome
     | _ => false)

def searchDangerHref : List Char → Bool
  | [] => false
  | c :: rest => dangerHrefAt (c :: rest) || searchDangerHref rest

/-- The test `/rel\s*=/i`. -/
def relEqAt (cs : List Char) : Bool :=
  match matchCIs "rel" cs with
  | none => false
  | some r =>
    (match r.dropWhile isWsChar with
     | '=' :: _ => true
     | _ => false)

def searchRelEq : List Char → Bool
  | [] => false
  | c :: rest => relEqAt (c :: rest) || searchRelEq rest

/-- The test `/rel\s*=\s*["'][^"']*noopener/i`. -/
def relNoopenerAt (cs : List Char) : Bool :=
  match matchCIs "rel" cs with
  | none => false
  | some r =>
    (match r.dropWhile isWsChar with
     | '=' :: r2 =>
       (match r2.dropWhile isWsChar with
        | q :: r3 =>
          if isQuote q then
            containsCI "noopener" (r3.takeWhile (fun c => ¬ isQuote c))
          else false
        | [] => false)
     | _ => false)

def searchRelNoopener : List Char → Bool
  | [] => false
  | c :: rest => relNoopenerAt (c :: rest) || searchRelNoopener rest

/-- `rel\s*=\s*["']([^"']*)["']` matched at the head: returns the captured
value and the rest after the closing quote. -/
def relValueAt (cs : List Char) : Option (List Char × List Char) :=
  match matchCIs "rel" cs with
  | none => none
  | some r =>
    match r.dropWhile isWsChar with
    | '=' :: r2 =>
      (match r2.dropWhile isWsChar with
       | q :: r3 =>
         if isQuote q then
           let v := r3.takeWhile (fun c => ¬ isQuote c)
           match r3.drop v.length with
           | q2 :: r4 => if isQuote q2 then some (v, r4) else none
           | [] => none
         else none
       | [] => none)
    | _ => none

/-- `match.replace(/rel\s*=\s*["']([^"']*)["']/i,
'rel="$1 noopener noreferrer"')`: rewrite the first occurrence only. -/
def rewriteRelFirst : List Char → List Char
  | [] => []
  | c :: rest =>
    match relValueAt (c :: rest) with
    | some (v, r) =>
      "rel=".toList ++ quoteD :: v ++ " noopener noreferrer".toList ++
        quoteD :: r
    | none => c :: rewriteRelFirst rest

/-- Does `href\s*=\s*["'][^"']*["']` match at the head? -/
def quotedHrefAt (cs : List Char) : Bool :=
  match matchCIs "href" cs with
  | none => false
  | some r =>
    (match r.dropWhile isWsChar with
     | '=' :: r2 =>
       (match r2.dropWhile isWsChar with
        | q :: r3 =>
          if isQuote q then
            (match r3.dropWhile (fun c => ¬ isQuote c) with
             | q2 :: _ => isQuote q2
             | [] => false)
          else false
        | [] => false)
     | _ => false)

/-- Whether the captured group of the rel-injection pattern can be
satisfied: somewhere in the tag body a quoted `href=` attribute shape. -/
def searchQuotedHref : List Char → Bool
  | [] => false
  | c :: rest => quotedHrefAt (c :: rest) || searchQuotedHref rest

/-- Pass 5 matcher: `/<a\s+([^>]*href\s*=\s*["'][^"']*["'][^>]*)>/gi` with
the source's callback (drop the whole opening tag on a dangerous protocol,
inject `rel="noopener noreferrer"` when no `rel=` is present, append the
two tokens when `rel` exists without `noopener`, else keep). -/
def tryRelInject (cs : List Char) : Option (List Char × List Char) :=
  match matchCIs "<a" cs with
  | none => none
  | some r1 =>
    let ws := r1.takeWhile isWsChar
    if ws.isEmpty then none
    else
      match splitUntilGt (r1.drop ws.length) with
      | (_, none) => none
      | (inner, some r2) =>
        if searchQuotedHref inner then
          let matched := cs.take (cs.length - r2.length)
          if searchDangerHref inner then some ([], r2)
          else if searchRelEq inner then
            (if searchRelNoopener inner then some (matched, r2)
             else some (rewriteRelFirst matched, r2))
          else
            some ("<a ".toList ++ inner ++ " rel=".toList ++ quoteD ::
              "noopener noreferrer".toList ++ [quoteD, '>'], r2)
        else none

/-- Pass 6 matcher: `/<a\s*>\s*([^<]*)<\/a>/gi` replaced by `$1`. -/
def tryBareAnchorUnwrap (cs : List Char) : Option (List Char × List Char) :=
  match matchCIs "<a" cs with
  | none => none
  | some r1 =>
    match r1.dropWhile isWsChar with
    | '>' :: r2 =>
      let r3 := r2.dropWhile isWsChar
      let content := r3.takeWhile (fun c => ¬ (c = '<'))
      match matchCIs "</a>" (r3.drop content.length) with
      | none => none
      | some r4 => some (content, r4)
    | _ => none

/-- Pass 7 matcher: `/<a\s+[^>]*>\s*<\/a>/gi` deleted. -/
def tryEmptyAnchorDelete (cs : List Char) : Option (List Char × List Char) :=
  match matchCIs "<a" cs with
  | none => none
  | some r1 =>
    let ws := r1.takeWhile isWsChar
    if ws.isEmpty then none
    else
      match splitUntilGt (r1.drop ws.length) with
      | (_, none) => none
      | (_, some r2) =>
        match matchCIs "</a>" (r2.dropWhile isWsChar) with
        | none => none
        | some r3 => some ([], r3)

/-- `sanitizeHTML(html)` from src/supabase.ts: the DOMPurify allow-list
pass under `SANITIZE_CONFIG`, then the five regex post-processing passes
in source order (dangerous-URL strip, event-handler strip, style strip,
href-less anchor unwrap, rel injection, bare-anchor unwrap, empty-anchor
delete). Empty input short-circuits to the empty string, as does the
source's falsy check. -/
def sanitizeHTML (html : String) : String :=
  if html = "" then ""
  else
    let s0 := domPurify SANITIZE_CONFIG html.toList
    let s1 := delPass tryUrlStrip s0
    let s2 := delPass tryHandlerStrip s1
    let s3 := delPass tryStyleStrip s2
    let s4 := runPass tryEmptyAnchorUnwrap s3
    let s5 := runPass tryRelInject s4
    let s6 := runPass tryBareAnchorUnwrap s5
    let s7 := runPass tryEmptyAnchorDelete s6
    String.mk s7

/-- `sanitizePlainText(text)` from src/supabase.ts:
`DOMPurify.sanitize(text, { ALLOWED_TAGS: [] })`. -/
def sanitizePlainText (text : String) : String :=
  if text = "" then "" else String.mk (domPurify PLAIN_CONFIG text.toList)

/-- Substring containment (used to state the sanitizer claims). -/
def containsStr (s pat : String) : Prop :=
  pat.toList <:+: s.toList

instance (s pat : String) : Decidable (containsStr s pat) :=
  List.decidableInfix pat.toList s.toList

/-- The text pieces the empty allow-list keeps from one node: the mirror
of `filterNode PLAIN_CONFIG` with the `HNode.text` wrapper stripped. -/
def plainTexts1 : Nat → HNode → List (List Char)
  | 0, _ => []
  | _ + 1, .text s => [s]
  | fuel + 1, .elem name _ kids =>
    if forbidContentsTags.contains name then []
    else (kids.map (plainTexts1 fuel)).flatten

def plainTexts (fuel : Nat) (ns : List HNode) : List (List Char) :=
  (ns.map (plainTexts1 fuel)).flatten

theorem mapGet_mapSet {α : Type} (m : List (String × α)) (k : String) (v : α) :
    mapGet (mapSet m k v) k = some v := by
  unfold mapSet mapGet
  by_cases h : m.any (fun p => p.1 == k)
  · simp only [h, if_true]
    induction m with
    | nil => simp at h
    | cons hd tl ih =>
      by_cases hh : hd.1 == k
      · simp [List.find?, hh]
      · simp only [List.any_cons, Bool.or_eq_true] at h
        rcases h with h | h
        · exact absurd h hh
        · simpa [List.find?, hh] using ih h
  · simp only [h, if_false]
    induction m with
    | nil => simp [List.find?]
    | cons hd tl ih =>
      simp only [List.any_cons, Bool.or_eq_true, not_or] at h
      simp only [List.cons_append, List.find?, h.1, Bool.not_eq_true] at *
      simpa [h.1] using ih h.2

theorem mapGet_mapDelete {α : Type} (m : List (String × α)) (k : String) :
    mapGet (mapDelete m k).2 k = none := by
  unfold mapDelete mapGet
  suffices h : (m.filter (fun p => ¬ (p.1 == k))).find? (fun p => p.1 == k) = none by
    simp [h]
  rw [List.find?_eq_none]
  intro p hp
  have h2 := (List.mem_filter.mp hp).2
  simpa using h2

theorem mapDelete_true_iff {α : Type} (m : List (String × α)) (k : String) :
    (mapDelete m k).1 = true ↔ ∃ p ∈ m, p.1 = k := by
  unfold mapDelete
  simp [List.any_eq_true]

theorem find?_filter_pred_none {α : Type} (l : List α) (p : α → Bool) :
    (l.filter (fun x => ¬ p x)).find? p = none := by
  rw [List.find?_eq_none]
  intro x hx
  have h2 := (List.mem_filter.mp hx).2
  simpa using h2

/-! ### Lemmas about the plain-text sanitizer -/

theorem encodeText_append (a b : List Char) :
    encodeText (a ++ b) = encodeText a ++ encodeText b := by
  induction a with
  | nil => simp [encodeText]
  | cons c cs ih => simp [encodeText, ih]

theorem encodeText_flatten (l : List (List Char)) :
    encodeText l.flatten = (l.map encodeText).flatten := by
  induction l with
  | nil => simp [encodeText]
  | cons a l ih => simp [encodeText_append, ih]

theorem lt_not_mem_encodeTextChar (c : Char) : '<' ∉ encodeTextChar c := by
  unfold encodeTextChar
  by_cases h1 : c = '&'
  · simp [h1]
  · by_cases h2 : c = '<'
    · simp [h1, h2]
    · by_cases h3 : c = '>'
      · simp [h1, h2, h3]
      · simp only [if_neg h1, if_neg h2, if_neg h3, List.mem_singleton]
        exact fun hlt => h2 hlt.symm

theorem lt_not_mem_encodeText (x : List Char) : '<' ∉ encodeText x := by
  induction x with
  | nil => simp [encodeText]
  | cons c cs ih =>
    simp only [encodeText, List.mem_append]
    rintro (h | h)
    · exact lt_not_mem_encodeTextChar c h
    · exact ih h

theorem decodeEntities_cons_ne (c : Char) (cs : List Char) (h : c ≠ '&') :
    decodeEntities (c :: cs) = c :: decodeEntities cs := by
  simp [decodeEntities, h]

theorem decodeEntities_amp (r : List Char) :
    decodeEntities ('&' :: 'a' :: 'm' :: 'p' :: ';' :: r) =
      '&' :: decodeEntities r := by
  simp [decodeEntities]

theorem decodeEntities_ltEnt (r : List Char) :
    decodeEntities ('&' :: 'l' :: 't' :: ';' :: r) = '<' :: decodeEntities r := by
  simp [decodeEntities]

theorem decodeEntities_gtEnt (r : List Char) :
    decodeEntities ('&' :: 'g' :: 't' :: ';' :: r) = '>' :: decodeEntities r := by
  simp [decodeEntities]

theorem decodeEntities_encodeText (x z : List Char) :
    decodeEntities (encodeText x ++ z) = x ++ decodeEntities z := by
  induction x with
  | nil => simp [encodeText]
  | cons c cs ih =>
    simp only [encodeText, List.append_assoc]
    by_cases h1 : c = '&'
    · subst h1
      have he : encodeTextChar '&' = ['&', 'a', 'm', 'p', ';'] := rfl
      rw [he]
      simp only [List.cons_append, List.nil_append, decodeEntities_amp, ih]
    · by_cases h2 : c = '<'
      · subst h2
        have he : encodeTextChar '<' = ['&', 'l', 't', ';'] := rfl
        rw [he]
        simp only [List.cons_append, List.nil_append, decodeEntities_ltEnt, ih]
      · by_cases h3 : c = '>'
        · subst h3
          have he : encodeTextChar '>' = ['&', 'g', 't', ';'] := rfl
          rw [he]
          simp only [List.cons_append, List.nil_append, decodeEntities_gtEnt,
            ih]
        · have he : encodeTextChar c = [c] := by
            simp [encodeTextChar, h1, h2, h3]
          rw [he]
          simp only [List.cons_append, List.nil_append]
          rw [decodeEntities_cons_ne c _ h1, ih]

theorem splitChunksAux_text (fuel : Nat) :
    ∀ cs : List Char, cs ≠ [] → '<' ∉ cs → cs.length < fuel →
      splitChunksAux fuel cs = [Chunk.text cs] := by
  induction fuel with
  | zero => intro cs _ _ h; omega
  | succ f ih =>
    intro cs hne hlt hlen
    match cs with
    | [] => exact absurd rfl hne
    | c :: cs2 =>
      have hc : ¬ (c = '<') := fun h => hlt (h ▸ List.mem_cons_self c cs2)
      simp only [splitChunksAux, if_neg hc]
      by_cases h2 : cs2 = []
      · subst h2
        have : splitChunksAux f [] = [] := by
          cases f <;> simp [splitChunksAux]
        simp [this, consTextChunk]
      · have hlt2 : '<' ∉ cs2 := fun h => hlt (List.mem_cons_of_mem c h)
        have hlen2 : cs2.length < f := by
          simp only [List.length_cons] at hlen
          omega
        rw [ih cs2 h2 hlt2 hlen2]
        simp [consTextChunk]

theorem filterNode_plain (fuel : Nat) :
    ∀ n : HNode,
      filterNode fuel PLAIN_CONFIG n = (plainTexts1 fuel n).map HNode.text := by
  induction fuel with
  | zero => intro n; simp [filterNode, plainTexts1]
  | succ f ih =>
    intro n
    match n with
    | .text s => simp [filterNode, plainTexts1]
    | .elem name ats kids =>
      have hallow : ¬ (PLAIN_CONFIG.allowedTags.contains name = true ∧
          ¬ PLAIN_CONFIG.forbidTags.contains name = true) := by
        simp [PLAIN_CONFIG]
      simp only [filterNode, plainTexts1, if_neg hallow]
      by_cases hf : forbidContentsTags.contains name = true
      · rw [if_pos hf, if_pos hf]
        simp
      · rw [if_neg hf, if_neg hf]
        rw [List.map_flatten, List.map_map]
        congr 1
        apply List.map_congr_left
        intro k _
        simpa [Function.comp] using ih k

theorem filterNodes_plain (fuel : Nat) (ns : List HNode) :
    filterNodes fuel PLAIN_CONFIG ns = (plainTexts fuel ns).map HNode.text := by
  unfold filterNodes plainTexts
  rw [List.map_flatten, List.map_map]
  congr 1
  apply List.map_congr_left
  intro k _
  simpa [Function.comp] using filterNode_plain fuel k

theorem serializeNodes_texts (f : Nat) (ts : List (List Char)) :
    serializeNodes (f + 1) (ts.map HNode.text) = encodeText ts.flatten := by
  rw [encodeText_flatten]
  unfold serializeNodes
  rw [List.map_map]
  congr 1

theorem domPurify_plain_shape (cs : List Char) :
    domPurify PLAIN_CONFIG cs =
      encodeText (plainTexts (cs.length + 1) (parseHTML cs)).flatten := by
  unfold domPurify
  rw [filterNodes_plain, serializeNodes_texts]

theorem domPurify_plain_fixed (y : List Char) :
    domPurify PLAIN_CONFIG (encodeText y) = encodeText y := by
  by_cases hy : encodeText y = []
  · rw [hy]; rfl
  · unfold domPurify parseHTML splitChunks
    rw [splitChunksAux_text ((encodeText y).length + 1) (encodeText y) hy
      (lt_not_mem_encodeText y) (Nat.lt_succ_self _)]
    have hdec : decodeEntities (encodeText y) = y := by
      have := decodeEntities_encodeText y []
      simpa [decodeEntities] using this
    simp only [tokensOfChunks, chunkToToken, List.filterMap, hdec]
    simp only [buildTree, List.foldl, buildStep, pushNode, closeAll,
      closeAllAux, List.reverse_singleton]
    simp [filterNodes, filterNode, serializeNodes, serializeNode]

/-- `sanitizePlainText` is idempotent: the first application yields
escaped text (the serialization of a tag-free forest), and escaped text
parses back to exactly the text it encodes. -/
theorem sanitizePlainText_idem (s : String) :
    sanitizePlainText (sanitizePlainText s) = sanitizePlainText s := by
  by_cases hs : s = ""
  · simp [hs, sanitizePlainText]
  · have h1 : sanitizePlainText s =
        String.mk (encodeText
          (plainTexts (s.toList.length + 1) (parseHTML s.toList)).flatten) := by
      unfold sanitizePlainText
      rw [if_neg hs, domPurify_plain_shape]
    set y := (plainTexts (s.toList.length + 1) (parseHTML s.toList)).flatten
      with hy
    rw [h1]
    by_cases he : encodeText y = []
    · rw [he]; rfl
    · have hne : String.mk (encodeText y) ≠ "" := by
        intro hcon
        apply he
        have : (String.mk (encodeText y)).data = ("" : String).data := by
          rw [hcon]
        simpa using this
      unfold sanitizePlainText
      rw [if_neg hne]
      have htl : (String.mk (encodeText y)).toList = encodeText y := rfl
      rw [htl, domPurify_plain_fixed]

/-! ### Lemmas about the rel-injection pass -/

theorem rewriteRelFirst_eq_or_infix (l : List Char) :
    rewriteRelFirst l = l ∨
      ("noopener noreferrer".toList <:+: rewriteRelFirst l) := by
  induction l with
  | nil => exact Or.inl rfl
  | cons c rest ih =>
    rcases hrv : relValueAt (c :: rest) with - | ⟨v, r⟩
    · simp only [rewriteRelFirst, hrv]
      rcases ih with h | h
      · exact Or.inl (by rw [h])
      · obtain ⟨s, t, hst⟩ := h
        exact Or.inr ⟨c :: s, t, by rw [← hst]; simp⟩
    · simp only [rewriteRelFirst, hrv]
      refine Or.inr ⟨"rel=".toList ++ quoteD :: v ++ [' '], quoteD :: r, ?_⟩
      have hsp : (" noopener noreferrer" : String).toList =
          ' ' :: ("noopener noreferrer" : String).toList := rfl
      rw [hsp]
      simp

/-! ## Claim theorems -/

/-- C1, counterexample: `sanitizeHTML` is not idempotent. On
`<a title="href=javascript:x" href="http://u">b</a>` — an anchor whose
`title` value merely mentions a dangerous-looking `href=` substring — the
rel-injection pass's protocol test matches inside the title value and
deletes the opening tag only, leaving the orphan `b</a>`; a second
application parses away the stray close tag, yielding `b`. -/
theorem sanitizeHTML_not_idempotent_cx :
    sanitizeHTML "<a title=\"href=javascript:x\" href=\"http://u\">b</a>" =
      "b</a>" ∧
    sanitizeHTML "b</a>" = "b" ∧
    sanitizeHTML (sanitizeHTML
        "<a title=\"href=javascript:x\" href=\"http://u\">b</a>") ≠
      sanitizeHTML "<a title=\"href=javascript:x\" href=\"http://u\">b</a>" := by
  decide

/-- C1, amended: `sanitizePlainText` is idempotent for every string, but
`sanitizeHTML` is not: the post-processing passes can leave dangling
artifacts (an orphan closing anchor tag) that a second application
removes. -/
theorem sanitize_idempotence_amended :
    (∀ s : String,
      sanitizePlainText (sanitizePlainText s) = sanitizePlainText s) ∧
    (∃ s : String, sanitizeHTML (sanitizeHTML s) ≠ sanitizeHTML s) :=
  ⟨sanitizePlainText_idem,
    ⟨"<a title=\"href=javascript:x\" href=\"http://u\">b</a>", by decide⟩⟩

/-- C2, the code evaluated at the failing input: for
`<img src="data:x onerror=alert(1)">` (a `data:` URL that the config's
`ALLOWED_URI_REGEXP` explicitly allows, carrying handler text inside the
attribute value), the dangerous-URL pass truncates the `src` value at its
first space, leaving `onerror=alert(1)` in attribute position with an
unquoted value that the quoted-handler pass cannot match: the output
`<img onerror=alert(1)">` carries a live `onerror` event-handler
attribute, contradicting the claim. -/
theorem sanitizeHTML_handler_attribute_escape :
    containsStr "<img src=\"data:x onerror=alert(1)\">" "onerror=" ∧
    sanitizeHTML "<img src=\"data:x onerror=alert(1)\">" =
      "<img onerror=alert(1)\">" ∧
    containsStr (sanitizeHTML "<img src=\"data:x onerror=alert(1)\">")
      " onerror=" := by
  decide

/-- C3, counterexample: an anchor that already carries `rel="noopener"`
survives `sanitizeHTML` unchanged — the pass only checks for the substring
`noopener` and never adds `noreferrer`, so the output anchor's `rel` does
not contain both required tokens. -/
theorem relInjection_noopener_cx :
    sanitizeHTML "<a href=\"http://u\" rel=\"noopener\">t</a>" =
      "<a href=\"http://u\" rel=\"noopener\">t</a>" ∧
    ¬ containsStr (sanitizeHTML "<a href=\"http://u\" rel=\"noopener\">t</a>")
      "noreferrer" := by
  decide

/-- C3, amended. The rel-injection pass decides by substring tests over
the whole opening-tag text, so no per-anchor guarantee is universal; what
holds is: (i) universally, whenever the pass fires on a match it either
deletes the opening tag, keeps it verbatim, or emits a replacement that
contains the text `noopener noreferrer` — so any rewrite it does perform
injects both tokens; (ii) the spec's example
`<a href="http://x.com">t</a>` gains `rel="noopener noreferrer"`;
(iii) an existing `rel="nofollow"` becomes
`"nofollow noopener noreferrer"`, preserving the existing token; but
(iv) an anchor whose `rel` already contains the substring `noopener` is
kept verbatim, without `noreferrer`; and (v) an anchor with a valid href
and no `rel` attribute whose `title` value merely contains `rel=` is also
kept verbatim, gaining nothing. -/
theorem relInjection_amended :
    (∀ (cs emit rest : List Char), tryRelInject cs = some (emit, rest) →
      emit = [] ∨ emit = cs.take (cs.length - rest.length) ∨
        ("noopener noreferrer".toList <:+: emit)) ∧
    sanitizeHTML "<a href=\"http://x.com\">t</a>" =
      "<a href=\"http://x.com\" rel=\"noopener noreferrer\">t</a>" ∧
    sanitizeHTML "<a href=\"http://u\" rel=\"nofollow\">t</a>" =
      "<a href=\"http://u\" rel=\"nofollow noopener noreferrer\">t</a>" ∧
    (sanitizeHTML "<a href=\"http://u\" rel=\"noopener\">t</a>" =
        "<a href=\"http://u\" rel=\"noopener\">t</a>" ∧
      ¬ containsStr
        (sanitizeHTML "<a href=\"http://u\" rel=\"noopener\">t</a>")
        "noreferrer") ∧
    (sanitizeHTML "<a href=\"http://x.com\" title=\"a rel= b\">t</a>" =
        "<a href=\"http://x.com\" title=\"a rel= b\">t</a>" ∧
      ¬ containsStr
        (sanitizeHTML "<a href=\"http://x.com\" title=\"a rel= b\">t</a>")
        "noreferrer") := by
  refine ⟨?_, by decide, by decide, by decide, by decide⟩
  intro cs emit rest h
  simp only [tryRelInject] at h
  split at h
  · simp at h
  · split at h
    · simp at h
    · split at h
      · -- unterminated tag chunk: the matcher yields none
        simp at h
      · rename_i r1 hws inner r2 heq2
        split at h
        · split at h
          · -- dangerous protocol: the opening tag is deleted
            simp only [Option.some.injEq, Prod.mk.injEq] at h
            exact Or.inl h.1.symm
          · split at h
            · split at h
              · -- rel already mentions noopener: kept verbatim
                simp only [Option.some.injEq, Prod.mk.injEq] at h
                obtain ⟨h1, h2⟩ := h
                subst h2
                exact Or.inr (Or.inl h1.symm)
              · -- rel exists without noopener: first-occurrence rewrite
                simp only [Option.some.injEq, Prod.mk.injEq] at h
                obtain ⟨h1, h2⟩ := h
                subst h2
                rcases rewriteRelFirst_eq_or_infix
                    (cs.take (cs.length - r2.length)) with hc | hc
                · exact Or.inr (Or.inl (h1.symm.trans hc))
                · exact Or.inr (Or.inr (h1 ▸ hc))
            · -- no rel test match: fresh rel attribute appended
              simp only [Option.some.injEq, Prod.mk.injEq] at h
              obtain ⟨h1, h2⟩ := h
              refine Or.inr (Or.inr ?_)
              rw [← h1]
              refine ⟨"<a ".toList ++ inner ++ " rel=".toList ++ [quoteD],
                [quoteD, '>'], ?_⟩
              simp
        · simp at h

/-- C3, witness for the amended theorem: on the spec's example anchor the
rel-injection matcher fires, and its emitted replacement — which is
neither a deletion nor the matched tag kept verbatim — contains the text
`noopener noreferrer`, as the universal conjunct requires. -/
theorem relInjection_amended_witness :
    tryRelInject "<a href=\"http://u\">t</a>".toList =
      some ("<a href=\"http://u\" rel=\"noopener noreferrer\">".toList,
        "t</a>".toList) ∧
    "noopener noreferrer".toList <:+:
      "<a href=\"http://u\" rel=\"noopener noreferrer\">".toList := by
  refine ⟨by decide, ?_⟩
  have h := relInjection_amended.1 "<a href=\"http://u\">t</a>".toList
    "<a href=\"http://u\" rel=\"noopener noreferrer\">".toList
    "t</a>".toList (by decide)
  rcases h with h | h | h
  · exact absurd h (by decide)
  · exact absurd h (by decide)
  · exact h

/-- C6, counterexample: the claim "every string of length exactly `max`
succeeds" fails at `max = 0` — the only string of length 0 is the empty
one, and the emptiness rule rejects it. -/
theorem validateStringLength_max_zero_cx :
    ("" : String).length = 0 ∧
    validateStringLength (JSVal.str "") 0 "Key" ≠
      ⟨true, none⟩ ∧
    validateStringLength (JSVal.str "") 0 "Key" =
      ⟨false, some "Key cannot be empty"⟩ := by
  decide

/-- C6, amended: `validateStringLength` checks type, then length, then
emptiness, first failure winning: a non-string value always gets the type
error; every *nonempty* string of length exactly `max` succeeds (for
`max = 0` the emptiness rule rejects the only candidate); every string of
length `max + 1` or more fails with a length error reporting both the
limit and the actual length; and the empty string always fails with the
emptiness error. -/
theorem validateStringLength_amended :
    (∀ (maxLength : Nat) (fieldName : String),
      validateStringLength JSVal.notStr maxLength fieldName =
        ⟨false, some (fieldName ++ " must be a string")⟩) ∧
    (∀ (v : String) (maxLength : Nat) (fieldName : String),
      v.length = maxLength → v ≠ "" →
      validateStringLength (JSVal.str v) maxLength fieldName =
        ⟨true, none⟩) ∧
    (∀ (v : String) (maxLength : Nat) (fieldName : String),
      v.length > maxLength →
      validateStringLength (JSVal.str v) maxLength fieldName =
        ⟨false, some (fieldName ++ " exceeds maximum length of " ++
          toString maxLength ++ " characters (received " ++
          toString v.length ++ ")")⟩) ∧
    (∀ (maxLength : Nat) (fieldName : String),
      validateStringLength (JSVal.str "") maxLength fieldName =
        ⟨false, some (fieldName ++ " cannot be empty")⟩) := by
  refine ⟨fun maxLength fieldName => rfl, ?_, ?_, ?_⟩
  · intro v maxLength fieldName hlen hne
    have hgt : ¬ v.length > maxLength := by omega
    have h0 : v.length ≠ 0 := by
      intro h0
      apply hne
      have hd : v.data = [] := List.length_eq_zero.mp h0
      cases v
      simp_all
    simp [validateStringLength, hgt, h0]
  · intro v maxLength fieldName hgt
    simp [validateStringLength, hgt]
  · intro maxLength fieldName
    have h0 : ¬ (("" : String).length > maxLength) := by
      simp
    simp [validateStringLength, h0]

/-- C6, witness for the amended theorem at the spec's own boundary
examples. -/
theorem validateStringLength_amended_witness :
    validateStringLength JSVal.notStr 255 "Key" =
      ⟨false, some ("Key" ++ " must be a string")⟩ ∧
    validateStringLength (JSVal.str "aaa") 3 "Key" = ⟨true, none⟩ ∧
    validateStringLength (JSVal.str "aaaa") 3 "Key" =
      ⟨false, some ("Key" ++ " exceeds maximum length of " ++ toString 3 ++
        " characters (received " ++ toString ("aaaa" : String).length ++
        ")")⟩ ∧
    validateStringLength (JSVal.str "") 255 "Key" =
      ⟨false, some ("Key" ++ " cannot be empty")⟩ :=
  ⟨validateStringLength_amended.1 255 "Key",
   validateStringLength_amended.2.1 "aaa" 3 "Key" (by decide) (by decide),
   validateStringLength_amended.2.2.1 "aaaa" 3 "Key" (by decide),
   validateStringLength_amended.2.2.2 255 "Key"⟩

theorem find?_map_ite {α : Type} (l : List α) (key : α → String) (id : String)
    (r r2 : α) (hf : l.find? (fun x => key x == id) = some r)
    (h2 : (key r2 == id) = true) :
    (l.map (fun x => if key x == id then r2 else x)).find?
      (fun x => key x == id) = some r2 := by
  induction l with
  | nil => simp at hf
  | cons hd tl ih =>
    by_cases hh : (key hd == id) = true
    · have hhd : (if (key hd == id) = true then r2 else hd) = r2 := if_pos hh
      rw [List.map_cons, hhd]
      simp only [List.find?, h2]
    · have hf2 : tl.find? (fun x => key x == id) = some r := by
        simpa [List.find?, hh] using hf
      have hh2 : (key hd == id) = false := by
        simpa using hh
      have hhd : (if (key hd == id) = true then r2 else hd) = hd := if_neg hh
      rw [List.map_cons, hhd]
      simp only [List.find?, hh2]
      exact ih hf2

/-- C4: publish-once semantics in both storage variants. For the
Ephemeral variant: creating a post with `published: true` (and no
caller-supplied `publishedAt`, as at the route) stamps `publishedAt` with
the creation time; an update never touches an already-set (nonempty)
`publishedAt`, whatever the partial contains; and an update carrying
`published: true` on a post with unset `publishedAt` sets it to the
update-time reading. The same three facts hold for the Durable variant at
the row level and on the returned entity. -/
theorem blogPost_publish_once :
    (∀ (st : InMemoryCMSStorage) (post : NewBlogPost) (now id : String),
      post.published = true → strTruthy post.publishedAt = false →
      (st.saveBlogPost post now id).1.publishedAt = some now ∧
      (st.saveBlogPost post now id).1.createdAt = now) ∧
    (∀ (st : InMemoryCMSStorage) (id : String) (u : BlogPostUpdate)
        (now nowP : String) (p : BlogPost) (s : String),
      st.getBlogPost id = some p → p.publishedAt = some s → s ≠ "" →
      ∃ q, (st.updateBlogPost id u now nowP).1 = some q ∧
        q.publishedAt = some s ∧
        (st.updateBlogPost id u now nowP).2.getBlogPost id = some q) ∧
    (∀ (st : InMemoryCMSStorage) (id : String) (u : BlogPostUpdate)
        (now nowP : String) (p : BlogPost),
      st.getBlogPost id = some p → strTruthy p.publishedAt = false →
      u.published = some true →
      ∃ q, (st.updateBlogPost id u now nowP).1 = some q ∧
        q.publishedAt = some nowP ∧
        (st.updateBlogPost id u now nowP).2.getBlogPost id = some q) ∧
    (∀ (self : SupabaseCMSStorage) (mod : ClientRef) (db : SupaDB)
        (post : NewBlogPost) (now newId : String),
      post.published = true → strTruthy post.publishedAt = false →
      now ≠ "" →
      db.blog_posts.any (fun r => r.slug == post.slug) = false →
      ∃ q, (SupabaseCMSStorage.saveBlogPost self mod db post now newId).value =
          some q ∧
        q.publishedAt = some now ∧ q.createdAt = now) ∧
    (∀ (self : SupabaseCMSStorage) (mod : ClientRef) (db : SupaDB)
        (id : String) (u : BlogPostUpdate) (now nowP : String) (r : BlogRow)
        (s : String),
      db.blog_posts.find? (fun x => x.id == id) = some r →
      r.published_at = some s → s ≠ "" →
      ∃ q, (SupabaseCMSStorage.updateBlogPost self mod db id u now
          nowP).value = some q ∧
        q.publishedAt = some s ∧
        ∃ r2, (SupabaseCMSStorage.updateBlogPost self mod db id u now
            nowP).db.blog_posts.find? (fun x => x.id == id) = some r2 ∧
          r2.published_at = some s) ∧
    (∀ (self : SupabaseCMSStorage) (mod : ClientRef) (db : SupaDB)
        (id : String) (u : BlogPostUpdate) (now nowP : String) (r : BlogRow),
      db.blog_posts.find? (fun x => x.id == id) = some r →
      jsOrNull r.published_at = none → u.published = some true → nowP ≠ "" →
      ∃ q, (SupabaseCMSStorage.updateBlogPost self mod db id u now
          nowP).value = some q ∧
        q.publishedAt = some nowP ∧
        ∃ r2, (SupabaseCMSStorage.updateBlogPost self mod db id u now
            nowP).db.blog_posts.find? (fun x => x.id == id) = some r2 ∧
          r2.published_at = some nowP) := by
  refine ⟨?_, ?_, ?_, ?_, ?_, ?_⟩
  · intro st post now id hpub hset
    unfold InMemoryCMSStorage.saveBlogPost
    simp [hpub, hset]
  · intro st id u now nowP p s hfind hset hs
    have hfind2 : mapGet st.blogPosts id = some p := hfind
    have hcond : ¬ (u.published.getD false = true ∧
        ¬ strTruthy p.publishedAt = true) := by
      simp [hset, strTruthy, hs]
    have hpub : (mergeBlogPost p u now nowP).publishedAt = some s := by
      show (if u.published.getD false ∧ ¬ strTruthy p.publishedAt then
        some nowP else p.publishedAt) = some s
      rw [if_neg hcond, hset]
    refine ⟨mergeBlogPost p u now nowP, ?_, hpub, ?_⟩
    · simp only [InMemoryCMSStorage.updateBlogPost, hfind2]
    · simp only [InMemoryCMSStorage.updateBlogPost, hfind2,
        InMemoryCMSStorage.getBlogPost]
      exact mapGet_mapSet _ _ _
  · intro st id u now nowP p hfind hunset hpub
    have hfind2 : mapGet st.blogPosts id = some p := hfind
    have hcond : u.published.getD false = true ∧
        ¬ strTruthy p.publishedAt = true := by
      simp [hpub, hunset]
    have hq : (mergeBlogPost p u now nowP).publishedAt = some nowP := by
      show (if u.published.getD false ∧ ¬ strTruthy p.publishedAt then
        some nowP else p.publishedAt) = some nowP
      rw [if_pos hcond]
    refine ⟨mergeBlogPost p u now nowP, ?_, hq, ?_⟩
    · simp only [InMemoryCMSStorage.updateBlogPost, hfind2]
    · simp only [InMemoryCMSStorage.updateBlogPost, hfind2,
        InMemoryCMSStorage.getBlogPost]
      exact mapGet_mapSet _ _ _
  · intro self mod db post now newId hpub hset hnow hslug
    unfold SupabaseCMSStorage.saveBlogPost
    rw [if_neg (by simp [hslug])]
    refine ⟨_, rfl, ?_, rfl⟩
    simp [BlogRow.toEntity, hpub, hset, jsOrNull, hnow]
  · intro self mod db id u now nowP r s hfind hset hs
    have hpatch : blogPubPatch db id u nowP = none := by
      unfold blogPubPatch
      by_cases hp : u.published = some true
      · simp [hp, hfind, hset, jsOrNull, strTruthy, hs]
      · simp [hp]
    have hrow : (patchBlogRow r u now (blogPubPatch db id u nowP)).published_at
        = some s := by
      simp [patchBlogRow, hpatch, hset]
    have hid : ((patchBlogRow r u now (blogPubPatch db id u nowP)).id == id)
        = true := by
      have hmem := List.find?_some hfind
      simp only [patchBlogRow]
      simpa using hmem
    refine ⟨(patchBlogRow r u now (blogPubPatch db id u nowP)).toEntity,
      ?_, ?_, ?_⟩
    · simp only [SupabaseCMSStorage.updateBlogPost, hfind]
    · simp [BlogRow.toEntity, hrow, jsOrNull, hs]
    · refine ⟨patchBlogRow r u now (blogPubPatch db id u nowP), ?_, hrow⟩
      simp only [SupabaseCMSStorage.updateBlogPost, hfind]
      exact find?_map_ite _ _ _ r _ hfind hid
  · intro self mod db id u now nowP r hfind hunset hpub hnowP
    have hpatch : blogPubPatch db id u nowP = some (some nowP) := by
      unfold blogPubPatch
      simp [hpub, hfind, hunset, strTruthy]
    have hrow : (patchBlogRow r u now (blogPubPatch db id u nowP)).published_at
        = some nowP := by
      simp [patchBlogRow, hpatch]
    have hid : ((patchBlogRow r u now (blogPubPatch db id u nowP)).id == id)
        = true := by
      have hmem := List.find?_some hfind
      simp only [patchBlogRow]
      simpa using hmem
    refine ⟨(patchBlogRow r u now (blogPubPatch db id u nowP)).toEntity,
      ?_, ?_, ?_⟩
    · simp only [SupabaseCMSStorage.updateBlogPost, hfind]
    · simp [BlogRow.toEntity, hrow, jsOrNull, hnowP]
    · refine ⟨patchBlogRow r u now (blogPubPatch db id u nowP), ?_, hrow⟩
      simp only [SupabaseCMSStorage.updateBlogPost, hfind]
      exact find?_map_ite _ _ _ r _ hfind hid

/-- C4, witness: the publish-once theorem instantiated at concrete states
— creation with `published: true` stamps `publishedAt` with the creation
time; an update re-affirming `published: true` on an already-published
post keeps `publishedAt` at `"T1"`; the same update on a never-published
post stamps it with the update-time reading `"NP"`; likewise for the
Durable variant. -/
theorem blogPost_publish_once_witness :
    ((InMemoryCMSStorage.saveBlogPost InMemoryCMSStorage.fresh sampleNewPub
        "T0" "b0").1.publishedAt = some "T0" ∧
      (InMemoryCMSStorage.saveBlogPost InMemoryCMSStorage.fresh sampleNewPub
        "T0" "b0").1.createdAt = "T0") ∧
    (sampleStPub.updateBlogPost "b1" samplePubUpdate "N" "NP").1.map
      BlogPost.publishedAt = some (some "T1") ∧
    (sampleStUnpub.updateBlogPost "b2" samplePubUpdate "N" "NP").1.map
      BlogPost.publishedAt = some (some "NP") ∧
    (SupabaseCMSStorage.saveBlogPost ⟨ClientRef.anon⟩ ClientRef.anon emptyDb
      sampleNewPub "T0" "b0").value.map BlogPost.publishedAt =
      some (some "T0") ∧
    (SupabaseCMSStorage.updateBlogPost ⟨ClientRef.anon⟩ ClientRef.anon
      sampleDbPub "b1" samplePubUpdate "N" "NP").value.map
      BlogPost.publishedAt = some (some "T1") ∧
    (SupabaseCMSStorage.updateBlogPost ⟨ClientRef.anon⟩ ClientRef.anon
      sampleDbUnpub "b2" samplePubUpdate "N" "NP").value.map
      BlogPost.publishedAt = some (some "NP") := by
  obtain ⟨w1a, w1b⟩ := blogPost_publish_once.1 InMemoryCMSStorage.fresh
    sampleNewPub "T0" "b0" (by decide) (by decide)
  obtain ⟨q2, h2a, h2b, _⟩ := blogPost_publish_once.2.1 sampleStPub "b1"
    samplePubUpdate "N" "NP" samplePublishedPost "T1" (by decide) (by decide)
    (by decide)
  obtain ⟨q3, h3a, h3b, _⟩ := blogPost_publish_once.2.2.1 sampleStUnpub "b2"
    samplePubUpdate "N" "NP" sampleUnpubPost (by decide) (by decide)
    (by decide)
  obtain ⟨q4, h4a, h4b, _⟩ := blogPost_publish_once.2.2.2.1
    ⟨ClientRef.anon⟩ ClientRef.anon emptyDb sampleNewPub "T0" "b0"
    (by decide) (by decide) (by decide) (by decide)
  obtain ⟨q5, h5a, h5b, _⟩ := blogPost_publish_once.2.2.2.2.1
    ⟨ClientRef.anon⟩ ClientRef.anon sampleDbPub "b1" samplePubUpdate "N" "NP"
    sampleRowPub "T1" (by decide) (by decide) (by decide)
  obtain ⟨q6, h6a, h6b, _⟩ := blogPost_publish_once.2.2.2.2.2
    ⟨ClientRef.anon⟩ ClientRef.anon sampleDbUnpub "b2" samplePubUpdate "N"
    "NP" sampleRowUnpub (by decide) (by decide) (by decide) (by decide)
  refine ⟨⟨w1a, w1b⟩, ?_, ?_, ?_, ?_, ?_⟩
  · rw [h2a]; simp [h2b]
  · rw [h3a]; simp [h3b]
  · rw [h4a]; simp [h4b]
  · rw [h5a]; simp [h5b]
  · rw [h6a]; simp [h6b]

/-- C10: in both storage variants `updateBlogPost` ignores any
`publishedAt` supplied in the update partial — the result is invariant
under replacing that field — and the stored `publishedAt` is determined
solely by the published-transition rule applied to the existing entity. -/
theorem updateBlogPost_ignores_publishedAt :
    (∀ (st : InMemoryCMSStorage) (id : String) (u : BlogPostUpdate)
        (p : Option (Option String)) (now nowP : String),
      st.updateBlogPost id { u with publishedAt := p } now nowP =
        st.updateBlogPost id u now nowP) ∧
    (∀ (self : SupabaseCMSStorage) (mod : ClientRef) (db : SupaDB)
        (id : String) (u : BlogPostUpdate) (p : Option (Option String))
        (now nowP : String),
      SupabaseCMSStorage.updateBlogPost self mod db id
          { u with publishedAt := p } now nowP =
        SupabaseCMSStorage.updateBlogPost self mod db id u now nowP) ∧
    (∀ (st : InMemoryCMSStorage) (id : String) (u : BlogPostUpdate)
        (now nowP : String) (pb : BlogPost),
      st.getBlogPost id = some pb →
      ∃ q, (st.updateBlogPost id u now nowP).1 = some q ∧
        q.publishedAt =
          (if u.published.getD false ∧ ¬ strTruthy pb.publishedAt then
            some nowP else pb.publishedAt)) := by
  refine ⟨?_, ?_, ?_⟩
  · intro st id u p now nowP
    cases u
    rfl
  · intro self mod db id u p now nowP
    cases u
    rfl
  · intro st id u now nowP pb hfind
    have hfind2 : mapGet st.blogPosts id = some pb := hfind
    refine ⟨mergeBlogPost pb u now nowP, ?_, rfl⟩
    simp only [InMemoryCMSStorage.updateBlogPost, hfind2]

/-- C10, witness: a partial that explicitly supplies
`publishedAt: "EVIL"` produces exactly the same result as one that omits
it, and the stored value comes from the transition rule. -/
theorem updateBlogPost_ignores_publishedAt_witness :
    sampleStPub.updateBlogPost "b1"
        { samplePubUpdate with publishedAt := some (some "EVIL") } "N" "NP" =
      sampleStPub.updateBlogPost "b1" samplePubUpdate "N" "NP" ∧
    SupabaseCMSStorage.updateBlogPost ⟨ClientRef.anon⟩ ClientRef.anon
        sampleDbPub "b1"
        { samplePubUpdate with publishedAt := some (some "EVIL") } "N" "NP" =
      SupabaseCMSStorage.updateBlogPost ⟨ClientRef.anon⟩ ClientRef.anon
        sampleDbPub "b1" samplePubUpdate "N" "NP" ∧
    (sampleStPub.updateBlogPost "b1" samplePubUpdate "N" "NP").1.map
      BlogPost.publishedAt = some (some "T1") := by
  obtain ⟨q, hqa, hqb⟩ := updateBlogPost_ignores_publishedAt.2.2 sampleStPub
    "b1" samplePubUpdate "N" "NP" samplePublishedPost (by decide)
  refine ⟨updateBlogPost_ignores_publishedAt.1 sampleStPub "b1"
    samplePubUpdate (some (some "EVIL")) "N" "NP",
    updateBlogPost_ignores_publishedAt.2.1 ⟨ClientRef.anon⟩ ClientRef.anon
      sampleDbPub "b1" samplePubUpdate (some (some "EVIL")) "N" "NP", ?_⟩
  rw [hqa]
  simp only [Option.map]
  rw [hqb]
  decide

/-- C5, counterexample: the Durable variant's `deleteTextContent` on an
empty database returns `true` although no entity with that id existed and
nothing was removed — refuting "returns true if and only if an entity was
removed". -/
theorem supabaseDelete_missing_id_cx :
    (SupabaseCMSStorage.deleteTextContent ⟨ClientRef.anon⟩ ClientRef.anon
      emptyDb "absent").value = true ∧
    emptyDb.text_content = [] ∧
    (SupabaseCMSStorage.deleteTextContent ⟨ClientRef.anon⟩ ClientRef.anon
      emptyDb "absent").db = emptyDb := by
  decide

/-- C5, amended: neither variant ever signals an error on a missing id,
and after a delete the id no longer resolves; but only the Ephemeral
variant's boolean reports whether something was removed — the Durable
variant returns `!error`, which is `true` whether or not a row with the
id existed. -/
theorem delete_semantics_amended :
    (∀ (st : InMemoryCMSStorage) (id : String),
      ((st.deleteTextContent id).1 = true ↔ ∃ p ∈ st.textContent, p.1 = id)) ∧
    (∀ (st : InMemoryCMSStorage) (id : String),
      (st.deleteTextContent id).2.getTextContent id = none) ∧
    (∀ (st : InMemoryCMSStorage) (id : String),
      ((st.deleteBlogPost id).1 = true ↔ ∃ p ∈ st.blogPosts, p.1 = id)) ∧
    (∀ (st : InMemoryCMSStorage) (id : String),
      (st.deleteBlogPost id).2.getBlogPost id = none) ∧
    (∀ (st : InMemoryCMSStorage) (id : String),
      ((st.deletePageConfig id).1 = true ↔ ∃ p ∈ st.pageConfigs, p.1 = id)) ∧
    (∀ (st : InMemoryCMSStorage) (id : String),
      (st.deletePageConfig id).2.getPageConfig id = none) ∧
    (∀ (self : SupabaseCMSStorage) (mod : ClientRef) (db : SupaDB)
        (id : String),
      (SupabaseCMSStorage.deleteTextContent self mod db id).value = true ∧
      (SupabaseCMSStorage.getTextContent self
        (SupabaseCMSStorage.deleteTextContent self mod db id).db id).value =
        none) ∧
    (∀ (self : SupabaseCMSStorage) (mod : ClientRef) (db : SupaDB)
        (id : String),
      (SupabaseCMSStorage.deleteBlogPost self mod db id).value = true ∧
      (SupabaseCMSStorage.getBlogPost self
        (SupabaseCMSStorage.deleteBlogPost self mod db id).db id).value =
        none) ∧
    (∀ (self : SupabaseCMSStorage) (mod : ClientRef) (db : SupaDB)
        (id : String),
      (SupabaseCMSStorage.deletePageConfig self mod db id).value = true ∧
      (SupabaseCMSStorage.getPageConfig self
        (SupabaseCMSStorage.deletePageConfig self mod db id).db id).value =
        none) := by
  refine ⟨fun st id => mapDelete_true_iff _ _,
    fun st id => mapGet_mapDelete _ _,
    fun st id => mapDelete_true_iff _ _,
    fun st id => mapGet_mapDelete _ _,
    fun st id => mapDelete_true_iff _ _,
    fun st id => mapGet_mapDelete _ _, ?_, ?_, ?_⟩
  · intro self mod db id
    refine ⟨rfl, ?_⟩
    show ((db.text_content.filter (fun r => ¬ (r.id == id))).find?
      (fun r => r.id == id)).map TextRow.toEntity = none
    rw [find?_filter_pred_none]
    rfl
  · intro self mod db id
    refine ⟨rfl, ?_⟩
    show ((db.blog_posts.filter (fun r => ¬ (r.id == id))).find?
      (fun r => r.id == id)).map BlogRow.toEntity = none
    rw [find?_filter_pred_none]
    rfl
  · intro self mod db id
    refine ⟨rfl, ?_⟩
    show ((db.page_configs.filter (fun r => ¬ (r.id == id))).find?
      (fun r => r.id == id)).map ConfigRow.toEntity = none
    rw [find?_filter_pred_none]
    rfl

/-- C7: the selector binds the Durable variant to the caller's
authenticated client, but `updateTextContent`, `deleteTextContent`,
`saveBlogPost` and `savePageConfig` (and the other write operations)
issue their queries through the module-level default client `supabase`
instead of `this.client` — the caller's credential is not used. -/
theorem supabase_writes_use_default_client :
    getCMSStorage (some ClientRef.anon) (some (ClientRef.authed "tok")) =
      CMSStorageChoice.supabaseStorage ⟨ClientRef.authed "tok"⟩ ∧
    (SupabaseCMSStorage.updateTextContent ⟨ClientRef.authed "tok"⟩
      ClientRef.anon emptyDb "id1" ⟨none, none, none⟩ "T").clients =
      [ClientRef.anon] ∧
    (SupabaseCMSStorage.deleteTextContent ⟨ClientRef.authed "tok"⟩
      ClientRef.anon emptyDb "id1").clients = [ClientRef.anon] ∧
    (SupabaseCMSStorage.saveBlogPost ⟨ClientRef.authed "tok"⟩ ClientRef.anon
      emptyDb sampleNewPub "T" "id2").clients = [ClientRef.anon] ∧
    (SupabaseCMSStorage.savePageConfig ⟨ClientRef.authed "tok"⟩
      ClientRef.anon emptyDb ⟨"pk", "t", none, "cfg"⟩ "T" "id3").clients =
      [ClientRef.anon] ∧
    ClientRef.anon ≠ ClientRef.authed "tok" := by
  decide

/-- C8: when no remote client is configured, `getCMSStorage` builds a
brand-new `InMemoryCMSStorage` inside every request handler. An entity
saved through one request's instance is retrievable from that same
instance, but the next request's instance is again the fresh empty one,
in which the id resolves to nothing. -/
theorem inMemory_state_not_shared_across_requests :
    getCMSStorage none none =
      CMSStorageChoice.inMemory InMemoryCMSStorage.fresh ∧
    (InMemoryCMSStorage.saveTextContent InMemoryCMSStorage.fresh ⟨"k", "c"⟩
      "T" "text-1").2.getTextContent "text-1" =
      some (InMemoryCMSStorage.saveTextContent InMemoryCMSStorage.fresh
        ⟨"k", "c"⟩ "T" "text-1").1 ∧
    InMemoryCMSStorage.getTextContent InMemoryCMSStorage.fresh "text-1" =
      none := by
  decide

/-- C9: two-run indistinguishability of identity derivation. A request
with no `authorization` header, a header whose first seven characters do
not case-insensitively spell `"bearer "`, or an empty token after
stripping, derives exactly the same context as a request carrying a
well-formed token that the identity provider rejects (`verify` returns
`none`, which also covers a provider exception through the source's
try/catch): user `null` and the default module client, with no error in
either run. -/
theorem derive_unauth_indistinguishable
    (configured : Bool) (verify : String → Option UserInfo)
    (h1 : Option String) (h2 : String)
    (hcase : h1 = none ∨
      (∃ s, h1 = some s ∧ lowerStr (jsTake (jsTrim s) 7) ≠ "bearer ") ∨
      (∃ s, h1 = some s ∧ jsTrim (jsDrop (jsTrim s) 7) = ""))
    (hpre : lowerStr (jsTake (jsTrim h2) 7) = "bearer ")
    (htok : jsTrim (jsDrop (jsTrim h2) 7) ≠ "")
    (hrej : verify (jsTrim (jsDrop (jsTrim h2) 7)) = none) :
    deriveAuth configured h1 verify = deriveAuth configured (some h2) verify ∧
    deriveAuth configured h1 verify = ⟨none, moduleSupabase configured⟩ := by
  have hres2 : deriveAuth configured (some h2) verify =
      ⟨none, moduleSupabase configured⟩ := by
    simp only [deriveAuth]
    rw [if_neg (fun hne => hne hpre)]
    by_cases hcfg : moduleSupabase configured = none
    · rw [if_pos (Or.inr hcfg)]
    · rw [if_neg (by push_neg; exact ⟨htok, hcfg⟩), hrej]
  have hres1 : deriveAuth configured h1 verify =
      ⟨none, moduleSupabase configured⟩ := by
    rcases hcase with hnone | ⟨s, hs, hbad⟩ | ⟨s, hs, hempty⟩
    · rw [hnone]
      rfl
    · subst hs
      simp only [deriveAuth]
      rw [if_pos hbad]
    · subst hs
      simp only [deriveAuth]
      by_cases hb : lowerStr (jsTake (jsTrim s) 7) ≠ "bearer "
      · rw [if_pos hb]
      · rw [if_neg hb, if_pos (Or.inl hempty)]
  exact ⟨hres1.trans hres2.symm, hres1⟩

/-- C9, witness: a request with no header and a request with
`Authorization: Bearer expiredtoken` whose verification fails derive the
identical unauthenticated context with the default client. -/
theorem derive_unauth_indistinguishable_witness :
    deriveAuth true none (fun _ => none) =
      deriveAuth true (some "Bearer expiredtoken") (fun _ => none) ∧
    deriveAuth true none (fun _ => none) = ⟨none, some ClientRef.anon⟩ := by
  have h := derive_unauth_indistinguishable true (fun _ => none) none
    "Bearer expiredtoken" (Or.inl rfl) (by decide) (by decide) rfl
  exact ⟨h.1, by rw [h.2]; rfl⟩

end TryElysia
